import Mathlib

/-!
Verification of the cursor-free-vip repository specification.

This file shallowly embeds the parts of the code that the claims of the
specification are about:

* `cursor_auth.py` — `CursorAuth.update_auth` and `CursorAuth.__init__`;
  the SQLite `ItemTable(key TEXT PRIMARY KEY, value TEXT)` table is modelled
  as an association list ordered by rowid, and the database file as a
  `FileState` (missing file / file without the table / file with the table).
* `reset_machine_manual.py` — `version_check`, `modify_workbench_js`,
  `modify_main_js`, `MachineIDResetter.__init__`, `generate_new_ids`,
  `update_sqlite_db`, `update_storage_json`.
* `config.py` — `setup_config` / `get_config`; an INI configuration is a
  list of sections, each a list of option/value pairs, mirroring
  `configparser` (`has_section`, `add_section`, `has_option`, `set`).
* `new_signup.py` — `handle_turnstile`.

Environmental effects (SQLite errors, filesystem errors, browser state) are
made explicit as parameters: a fault oracle says which SQL statement raises,
boolean parameters say whether a file copy fails or whether the page reports
verification success, and random bytes are taken as inputs.
-/

/-- The rows of the SQLite `ItemTable(key TEXT PRIMARY KEY, value TEXT)`
table, in rowid order. -/
abbrev Table := List (String × String)

/-- Models `SELECT COUNT(*) FROM ItemTable WHERE key = ?`
(cursor_auth.py line 178). -/
def countKey : Table → String → Nat
  | [], _ => 0
  | p :: rest, k => (if p.1 = k then 1 else 0) + countKey rest k

/-- Models `UPDATE ItemTable SET value = ? WHERE key = ?`
(cursor_auth.py lines 185-188): every row whose key matches gets the new
value, rows keep their rowid (position). -/
def setValue (tbl : Table) (k v : String) : Table :=
  tbl.map (fun p => if p.1 = k then (k, v) else p)

/-- Models the body of the update loop of `CursorAuth.update_auth`
(cursor_auth.py lines 176-188): `INSERT` (a new row at the end) when
`SELECT COUNT(*)` returns 0, otherwise `UPDATE` in place. -/
def upsertOne (tbl : Table) (k v : String) : Table :=
  if countKey tbl k = 0 then tbl ++ [(k, v)] else setValue tbl k v

/-- Runs the update loop of `CursorAuth.update_auth` over a list of
key/value pairs (cursor_auth.py lines 176-188), fault-free. -/
def applyUpdates : Table → List (String × String) → Table
  | tbl, [] => tbl
  | tbl, (k, v) :: rest => applyUpdates (upsertOne tbl k v) rest

/-- `SELECT value FROM ItemTable WHERE key = ?` / Python `dict` lookup:
the first row with the given key (keys are unique under PRIMARY KEY /
dict semantics, so "first" is harmless generality). -/
def dictGet : Table → String → Option String
  | [], _ => none
  | p :: rest, k => if p.1 = k then some p.2 else dictGet rest k

/-- The keys of an association list. -/
def keysOf (l : List (String × String)) : List String :=
  l.map Prod.fst

/-- Models the `DELETE` half of SQLite `INSERT OR REPLACE`: all rows with
the given key are removed. -/
def eraseKey : Table → String → Table
  | [], _ => []
  | p :: rest, k => if p.1 = k then eraseKey rest k else p :: eraseKey rest k

/-- Models the loop of `MachineIDResetter.update_sqlite_db`
(reset_machine_manual.py lines 707-713): `INSERT OR REPLACE INTO ItemTable`
for each pair; SQLite removes a conflicting row and inserts the new row
with a fresh rowid, i.e. at the end. -/
def applyIOR : Table → List (String × String) → Table
  | tbl, [] => tbl
  | tbl, (k, v) :: rest => applyIOR (eraseKey tbl k ++ [(k, v)]) rest

/-- Rows whose key is not in the given key list (proof device for
characterising `applyIOR`). -/
def removeKeys : Table → List String → Table
  | [], _ => []
  | p :: rest, ks => if p.1 ∈ ks then removeKeys rest ks else p :: removeKeys rest ks

/-- The value a key holds after a sequence of writes, starting from a given
value (proof device for characterising `applyUpdates`). -/
def applyVal : List (String × String) → String → String → String
  | [], _, v => v
  | (k0, v0) :: rest, k, v => applyVal rest k (if k0 = k then v0 else v)

/-- `Option`-valued variant of `applyVal`, starting from an optional value
(proof device: tracks `dictGet` through `applyUpdates`). -/
def applyValOpt : List (String × String) → String → Option String → Option String
  | [], _, o => o
  | (k0, v0) :: rest, k, o => applyValOpt rest k (if k0 = k then some v0 else o)

/-- Rewrites the value of every row to its final value under a sequence of
writes (proof device for characterising `applyUpdates`). -/
def mapApply (us : List (String × String)) : Table → Table
  | [] => []
  | p :: rest => (p.1, applyVal us p.1 p.2) :: mapApply us rest

/-- The state of the SQLite database file `state.vscdb`:
missing, present without an `ItemTable` table, or present with one. -/
inductive FileState where
  | noFile : FileState
  | noTable : FileState
  | table : Table → FileState
deriving DecidableEq

/-- The `ItemTable` rows visible in a database file state (none when the
file or the table is absent). -/
def rowsOf : FileState → Table
  | FileState.noFile => []
  | FileState.noTable => []
  | FileState.table t => t

/-- The `updates` list built by `CursorAuth.update_auth`
(cursor_auth.py lines 160-170): `cursorAuth/cachedSignUpType` always, the
other three keys only when the corresponding argument is not `None`. -/
def authUpdates (email accessToken refreshToken : Option String) : List (String × String) :=
  [("cursorAuth/cachedSignUpType", "Auth_0")]
    ++ (match email with
        | some e => [("cursorAuth/cachedEmail", e)]
        | none => [])
    ++ (match accessToken with
        | some a => [("cursorAuth/accessToken", a)]
        | none => [])
    ++ (match refreshToken with
        | some r => [("cursorAuth/refreshToken", r)]
        | none => [])

/-- Executes the statements of the transaction of `CursorAuth.update_auth`
(cursor_auth.py lines 174-191).  `fault = some i` means the `i`-th statement
of the loop raises (environmental SQLite failure); `i` equal to the number
of pairs stands for a raising `COMMIT`.  On success the resulting rows are
returned; on a raise the exception propagates (`Except.error`). -/
def runTx (fault : Option Nat) : Table → List (String × String) → Nat → Except Unit Table
  | tbl, [], i => if fault = some i then Except.error () else Except.ok tbl
  | tbl, (k, v) :: rest, i =>
      if fault = some i then Except.error ()
      else runTx fault (upsertOne tbl k v) rest (i + 1)

/-- `CursorAuth.update_auth` (cursor_auth.py lines 108-208).
When the database file does not exist it is created together with an empty
`ItemTable` (lines 136-148); note the `CREATE TABLE IF NOT EXISTS` runs
only in that branch.  Then the update loop runs inside
`BEGIN TRANSACTION` … `COMMIT`; any exception triggers `ROLLBACK`
(restoring the rows at `BEGIN`) and is re-raised into the catch-all
handlers, which return `False` (lines 195-204).  When the file exists but
has no `ItemTable`, the first `SELECT COUNT(*)` raises, so the call returns
`False` and the state is unchanged. -/
def update_auth (fault : Option Nat) (st : FileState)
    (email accessToken refreshToken : Option String) : Bool × FileState :=
  let pre : FileState :=
    match st with
    | FileState.noFile => FileState.table []
    | s => s
  match pre with
  | FileState.table tbl =>
      match runTx fault tbl (authUpdates email accessToken refreshToken) 0 with
      | Except.ok tbl2 => (true, FileState.table tbl2)
      | Except.error _ => (false, FileState.table tbl)
  | s => (false, s)

/-- Holds when some statement executed inside the transaction of
`CursorAuth.update_auth` raises: either the table is missing (the first
`SELECT COUNT(*)` raises) or the fault oracle points at one of the loop
statements or the `COMMIT`. -/
def txFails (fault : Option Nat) (st : FileState)
    (email accessToken refreshToken : Option String) : Bool :=
  decide (st = FileState.noTable)
    || (match fault with
        | some i => decide (i ≤ (authUpdates email accessToken refreshToken).length)
        | none => false)

/-- `MachineIDResetter.update_sqlite_db` (reset_machine_manual.py lines
680-724): `sqlite3.connect` creates a missing file, `CREATE TABLE IF NOT
EXISTS ItemTable` ensures the table, then every pair of `new_ids` is
written with `INSERT OR REPLACE`; returns `True` (fault-free run). -/
def update_sqlite_db (st : FileState) (new_ids : List (String × String)) : Bool × FileState :=
  (true, FileState.table (applyIOR (rowsOf st) new_ids))

/-- Splits a character list at every occurrence of the separator, like
Python `str.split` with an explicit separator (used for `ver.split(".")`).
-/
def splitOnChar (c : Char) : List Char → List (List Char)
  | [] => [[]]
  | x :: xs =>
    let r := splitOnChar c xs
    if x = c then [] :: r
    else
      match r with
      | [] => [[x]]
      | y :: ys => (x :: y) :: ys

/-- All characters are ASCII digits. -/
def allDigits (l : List Char) : Bool :=
  l.all Char.isDigit

/-- Numeric value of a digit string (the `int()` of a component; `int` is
modelled on plain digit strings, which is the only shape reachable under
the version pattern). -/
def digitsToNat (l : List Char) : Nat :=
  l.foldl (fun n c => n * 10 + (c.toNat - 48)) 0

/-- The components of `s.split(".")` as character lists. -/
def versionParts (s : String) : List (List Char) :=
  splitOnChar '.' s.data

/-- Models `re.match(r"^\d+\.\d+\.\d+$", version)` (reset_machine_manual.py
line 299): equivalently, splitting at the dots yields exactly three
nonempty digit groups (the groups cannot contain a dot, so the two readings
agree). -/
def matchesVersionPattern (s : String) : Bool :=
  match versionParts s with
  | [a, b, c] =>
      (decide (a ≠ []) && allDigits a) && (decide (b ≠ []) && allDigits b)
        && (decide (c ≠ []) && allDigits c)
  | _ => false

/-- Models `parse_version`, i.e. `tuple(map(int, ver.split(".")))`
(reset_machine_manual.py line 314): `none` when some component is not a
digit string (then `int()` raises `ValueError`, which the catch-all turns
into `False`). -/
def parseVersionOpt (s : String) : Option (List Nat) :=
  if (versionParts s).all (fun p => decide (p ≠ []) && allDigits p)
  then some ((versionParts s).map digitsToNat)
  else none

/-- Total variant of `parse_version` (meaningful on pattern-matching
strings). -/
def parseVer (s : String) : List Nat :=
  (versionParts s).map digitsToNat

/-- Python tuple `<`: lexicographic, a strict prefix is smaller. -/
def tupLt : List Nat → List Nat → Bool
  | [], [] => false
  | [], _ :: _ => true
  | _ :: _, [] => false
  | a :: as', b :: bs' => if a < b then true else if b < a then false else tupLt as' bs'

/-- The `max_version` half of `version_check` (reset_machine_manual.py
lines 322-324): skipped when `max_version` is falsy, `False` when parsing
raises or when `current > parse_version(max_version)`. -/
def versionCheckMax (current : List Nat) (max_version : String) : Bool :=
  if max_version = "" then true
  else
    match parseVersionOpt max_version with
    | none => false
    | some mx => if tupLt mx current then false else true

/-- `version_check` (reset_machine_manual.py lines 283-330): `False` when
`version` does not match the pattern, otherwise `False` when the (truthy)
`min_version` parses above `version` or `max_version` parses below it, and
`True` otherwise; a `ValueError` from `int()` on `min_version` or
`max_version` hits the catch-all and yields `False`. -/
def version_check (version min_version max_version : String) : Bool :=
  if matchesVersionPattern version then
    match parseVersionOpt version with
    | none => false
    | some current =>
        if min_version = "" then versionCheckMax current max_version
        else
          match parseVersionOpt min_version with
          | none => false
          | some mn =>
              if tupLt current mn then false else versionCheckMax current max_version
  else false

/-- An INI configuration as `configparser` sees it: sections in file order,
each a list of option/value pairs. -/
abbrev Config := List (String × List (String × String))

/-- `config.has_section`. -/
def hasSection (cfg : Config) (s : String) : Bool :=
  cfg.any (fun p => p.1 = s)

/-- `config.has_option`. -/
def hasOption (cfg : Config) (s o : String) : Bool :=
  cfg.any (fun p => p.1 = s && p.2.any (fun q => q.1 = o))

/-- `config.add_section`: a new empty section at the end. -/
def addSection (cfg : Config) (s : String) : Config :=
  cfg ++ [(s, [])]

/-- `config.set`: replaces the option in place in every section of that
name, or appends it (sections named differently are untouched). -/
def setOption (cfg : Config) (s o v : String) : Config :=
  cfg.map (fun p => if p.1 = s then (p.1, upsertOne p.2 o v) else p)

/-- The inner option loop of the merge step of `setup_config`
(config.py lines 231-237): each missing option is added and flips
`config_modified`. -/
def mergeOpts (sec : String) : Config × Bool → List (String × String) → Config × Bool
  | acc, [] => acc
  | (cfg, m), (o, v) :: rest =>
      if hasOption cfg sec o then mergeOpts sec (cfg, m) rest
      else mergeOpts sec (setOption cfg sec o v, true) rest

/-- The section loop of the merge step of `setup_config` (config.py lines
227-237): each missing section is added (flipping `config_modified`), then
its options are merged. -/
def mergeSections : Config × Bool → List (String × List (String × String)) → Config × Bool
  | acc, [] => acc
  | (cfg, m), (sec, opts) :: rest =>
      let acc1 := if hasSection cfg sec then (cfg, m) else (addSection cfg sec, true)
      mergeSections (mergeOpts sec acc1 opts) rest

/-- Sets every option of one default section (the fresh-file branch of
`setup_config`, config.py lines 246-249). -/
def setAll (sec : String) : Config → List (String × String) → Config
  | cfg, [] => cfg
  | cfg, (o, v) :: rest => setAll sec (setOption cfg sec o v) rest

/-- Builds a configuration from the defaults when no config file exists
(config.py lines 246-249): `add_section` then `set` for every option. -/
def buildFresh : Config → List (String × List (String × String)) → Config
  | cfg, [] => cfg
  | cfg, (sec, opts) :: rest => buildFresh (setAll sec (addSection cfg sec) opts) rest

/-- Outcome of `setup_config`: the returned configuration, the contents of
`config.ini` afterwards, and whether the merge step modified/rewrote the
file (`config_modified`; the fresh-file branch always writes). -/
structure SetupResult where
  ret : Config
  file : Config
  modified : Bool
deriving DecidableEq

/-- `setup_config` (config.py lines 32-260) at the section/option/value
level, with the computed `default_config` as a parameter (it depends only
on platform and environment, identical across the two calls of the claim)
and the serialised `config.ini` modelled by its parsed contents (the
`configparser` write/read round trip is faithful for these values).  When
the file exists the defaults are merged in and the file rewritten only if
something was missing; otherwise a fresh configuration is built and
written. -/
def setup_config (defaults : List (String × List (String × String)))
    (file : Option Config) : SetupResult :=
  match file with
  | some existing =>
      let merged := mergeSections (existing, false) defaults
      { ret := merged.1
        file := if merged.2 then merged.1 else existing
        modified := merged.2 }
  | none =>
      let fresh := buildFresh [] defaults
      { ret := fresh, file := fresh, modified := true }

/-- `sys.platform` as the code distinguishes it. -/
inductive Platform where
  | win32 : Platform
  | linux : Platform
  | darwin : Platform
  | other : Platform
deriving DecidableEq

/-- How `CursorAuth.__init__` ends: `sys.exit(code)` (process terminates)
or a normal return (with or without a database connection). -/
inductive InitOutcome where
  | exited : Nat → InitOutcome
  | returned : Bool → InitOutcome
deriving DecidableEq

/-- `CursorAuth.__init__` (cursor_auth.py lines 39-106).  Environmental
conditions are parameters: whether `get_config` succeeds, the platform,
whether the platform section and `sqlite_path` option are configured,
whether the database directory and file exist, whether the file is
readable/writable, and whether `sqlite3.connect` succeeds.  Config failure,
an unsupported platform, and path errors all call `sys.exit(1)`; the later
checks print and return without a connection. -/
def cursorAuthInit (configOk : Bool) (platform : Platform)
    (pathConfigOk dirExists dbExists accessOk connectOk : Bool) : InitOutcome :=
  if configOk = false then InitOutcome.exited 1
  else if platform = Platform.other then InitOutcome.exited 1
  else if pathConfigOk = false then InitOutcome.exited 1
  else if dirExists = false then InitOutcome.exited 1
  else if dbExists = false then InitOutcome.returned false
  else if accessOk = false then InitOutcome.returned false
  else if connectOk then InitOutcome.returned true
  else InitOutcome.returned false

/-- How `MachineIDResetter.__init__` ends: an uncaught exception
propagating to the caller, or a normal return. -/
inductive MirInitOutcome where
  | raised : String → MirInitOutcome
  | ok : MirInitOutcome
deriving DecidableEq

/-- `MachineIDResetter.__init__` (reset_machine_manual.py lines 564-648):
no exception handler — a missing config file raises `FileNotFoundError`,
Windows without `APPDATA` raises `EnvironmentError`, an unsupported
platform raises `NotImplementedError`, all propagating to the caller. -/
def machineIDResetterInit (configFileExists : Bool) (platform : Platform)
    (appdataSet : Bool) : MirInitOutcome :=
  if configFileExists = false then MirInitOutcome.raised "FileNotFoundError"
  else
    match platform with
    | Platform.win32 =>
        if appdataSet = false then MirInitOutcome.raised "EnvironmentError"
        else MirInitOutcome.ok
    | Platform.other => MirInitOutcome.raised "NotImplementedError"
    | _ => MirInitOutcome.ok

/-- A patched JS file and its `.backup` sibling: the current content of
the target and the content of the backup when that file exists. -/
structure FsFile where
  target : String
  backup : Option String
deriving DecidableEq

/-- `modify_workbench_js` (reset_machine_manual.py lines 385-444).  The
backup is created first when `.backup` does not exist; a failing copy
returns `False` with nothing written.  Then the pattern search and the
already-modified marker test on the content are given by the parameters,
and `re.sub` by `subst`; the file is written only when the pattern is
found and the marker is absent. -/
def modify_workbench_js (copyFails patternFound alreadyModified : Bool)
    (subst : String → String) (fs : FsFile) : Bool × FsFile :=
  if fs.backup = none && copyFails then (false, fs)
  else
    let f := match fs.backup with
      | some _ => fs
      | none => { fs with backup := some fs.target }
    if patternFound then
      if alreadyModified then (true, f)
      else (true, { f with target := subst f.target })
    else (false, f)

/-- `modify_main_js` (reset_machine_manual.py lines 446-498).  Backup
first (failing copy returns `False` untouched); when the already-modified
test succeeds it returns `True` without writing, otherwise the `re.sub`
result is written unconditionally. -/
def modify_main_js (copyFails alreadyModified : Bool)
    (subst : String → String) (fs : FsFile) : Bool × FsFile :=
  if fs.backup = none && copyFails then (false, fs)
  else
    let f := match fs.backup with
      | some _ => fs
      | none => { fs with backup := some fs.target }
    if alreadyModified then (true, f)
    else (true, { f with target := subst f.target })

/-- `storage.json` and its `.bak` sibling, each as parsed JSON objects
(flat string-to-string maps in insertion order) when present. -/
structure StorageFS where
  storage : Option (List (String × String))
  bak : Option (List (String × String))
deriving DecidableEq

/-- Python `str.startswith` on character lists. -/
def startsWithList : List Char → List Char → Bool
  | _, [] => true
  | [], _ :: _ => false
  | a :: as', p :: ps => a = p && startsWithList as' ps

/-- Python `key.startswith(prefix)`. -/
def strStartsWith (s pre : String) : Bool :=
  startsWithList s.data pre.data

/-- The telemetry loop of `update_storage_json` (reset_machine_manual.py
lines 912-915): `data[key] = value` for every `new_ids` key starting with
`"telemetry."` (a Python dict assignment updates in place or appends). -/
def applyTelemetry : List (String × String) → List (String × String) → List (String × String)
  | data, [] => data
  | data, p :: rest =>
      applyTelemetry
        (if strStartsWith p.1 "telemetry." then upsertOne data p.1 p.2 else data) rest

/-- The data rewrite of `update_storage_json` (reset_machine_manual.py
lines 911-922): the telemetry loop, then the special handling of
`storage.serviceMachineId` when it appears in `new_ids`. -/
def updateData (data new_ids : List (String × String)) : List (String × String) :=
  let d1 := applyTelemetry data new_ids
  match dictGet new_ids "storage.serviceMachineId" with
  | some v => upsertOne d1 "storage.serviceMachineId" v
  | none => d1

/-- `MachineIDResetter.update_storage_json` (reset_machine_manual.py lines
881-932): when `storage.json` exists it is first copied to `.bak` and its
data loaded, otherwise the data starts empty; the rewritten data is then
written back and the call returns `True` (fault-free run). -/
def update_storage_json (fs : StorageFS) (new_ids : List (String × String)) : Bool × StorageFS :=
  match fs.storage with
  | some data =>
      (true, { storage := some (updateData data new_ids), bak := some data })
  | none =>
      (true, { fs with storage := some (updateData [] new_ids) })

/-- One verification attempt of `handle_turnstile` (new_signup.py lines
394-447), as the page presents it: whether the inner `try` raises before
the click-check, whether the challenge element is found, whether
`check_verification_success` reports success right after the click, and
whether it does at the post-attempt check. -/
structure AttemptOracle where
  innerRaises : Bool
  challengeFound : Bool
  successAfterClick : Bool
  successAfterAttempt : Bool
deriving DecidableEq

/-- Whether one loop iteration of `handle_turnstile` returns `True`: the
inner `try` either reaches the click and its success check, or its
exception is swallowed; either way the iteration ends with the
post-attempt `check_verification_success`. -/
def attemptSucceeds (a : AttemptOracle) : Bool :=
  if a.innerRaises then a.successAfterAttempt
  else if a.challengeFound && a.successAfterClick then true
  else a.successAfterAttempt

/-- `max_retries` of `handle_turnstile` (new_signup.py line 389). -/
def maxRetries : Nat := 2

/-- The `while retry_count < max_retries` loop of `handle_turnstile`
(new_signup.py lines 392-447): attempt `i`, return `True` on success,
otherwise the next iteration; `False` when the retries are exhausted. -/
def turnstileLoop (att : Nat → AttemptOracle) : Nat → Nat → Bool
  | _, 0 => false
  | i, Nat.succ n => if attemptSucceeds (att i) then true else turnstileLoop att (i + 1) n

/-- `handle_turnstile` (new_signup.py lines 371-459): an exception outside
the loop hits the outer catch-all and returns `False`; otherwise the loop
runs with `max_retries = 2`. -/
def handle_turnstile (outerRaises : Bool) (att : Nat → AttemptOracle) : Bool :=
  if outerRaises then false else turnstileLoop att 0 maxRetries

/-- The hex digit character Python `%x` formatting uses
(`0`-`9` then `a`-`f`). -/
def hexChar (n : Nat) : Char :=
  if n < 10 then Char.ofNat (48 + n) else Char.ofNat (87 + n)

/-- Two lowercase hex characters of one byte (`hexdigest` renders each
byte as two hex digits, high nibble first). -/
def byteHexChars (b : Nat) : List Char :=
  [hexChar (b / 16 % 16), hexChar (b % 16)]

/-- The character list of `hexdigest` of a byte string. -/
def bytesHexChars : List Nat → List Char
  | [] => []
  | b :: rest => byteHexChars b ++ bytesHexChars rest

/-- `hashlib.sha256(...).hexdigest()` / `sha512` as a function of the
digest bytes (the digests themselves are opaque random values; their
lengths — 32 and 64 bytes — are library facts stated as hypotheses). -/
def hexdigest (bs : List Nat) : String :=
  String.mk (bytesHexChars bs)

/-- The character list of `str(uuid.UUID(bytes=...))`: lowercase hex in
8-4-4-4-12 groups separated by dashes. -/
def uuidChars (bs : List Nat) : List Char :=
  bytesHexChars (bs.take 4) ++ '-' :: bytesHexChars ((bs.drop 4).take 2)
    ++ '-' :: bytesHexChars ((bs.drop 6).take 2)
    ++ '-' :: bytesHexChars ((bs.drop 8).take 2)
    ++ '-' :: bytesHexChars (bs.drop 10)

/-- `str(uuid.uuid4())` as a function of the 16 generated bytes. -/
def uuidStr (bs : List Nat) : String :=
  String.mk (uuidChars bs)

/-- ASCII uppercase of one character (what Python `str.upper()` does on
hex-and-dash strings). -/
def asciiUpper (c : Char) : Char :=
  if 'a' ≤ c && c ≤ 'z' then Char.ofNat (c.toNat - 32) else c

/-- Python `str.upper()` on the ASCII strings involved. -/
def pyUpper (s : String) : String :=
  String.mk (s.data.map asciiUpper)

/-- `MachineIDResetter.generate_new_ids` (reset_machine_manual.py lines
648-678) as a function of the random bytes drawn: the 16 `uuid4` bytes of
`dev_device_id`, the 32-byte sha256 digest, the 64-byte sha512 digest and
the 16 `uuid4` bytes of `sqm_id`.  Returns the dict (as an ordered pair
list) with its five fixed keys; `storage.serviceMachineId` reuses
`dev_device_id`. -/
def generate_new_ids (devBytes d256 d512 sqmBytes : List Nat) : List (String × String) :=
  let dev_device_id := uuidStr devBytes
  let machine_id := hexdigest d256
  let mac_machine_id := hexdigest d512
  let sqm_id := "\x7b" ++ pyUpper (uuidStr sqmBytes) ++ "\x7d"
  [("telemetry.devDeviceId", dev_device_id),
   ("telemetry.macMachineId", mac_machine_id),
   ("telemetry.machineId", machine_id),
   ("telemetry.sqmId", sqm_id),
   ("storage.serviceMachineId", dev_device_id)]

/-- Lowercase hexadecimal character. -/
def isLowerHex (c : Char) : Bool :=
  c.isDigit || ('a' ≤ c && c ≤ 'f')

/-- Uppercase hexadecimal character. -/
def isUpperHex (c : Char) : Bool :=
  c.isDigit || ('A' ≤ c && c ≤ 'F')

/-! ## Association-list lemmas for the `ItemTable` model -/

theorem countKey_cons (p : String × String) (rest : Table) (k : String) :
    countKey (p :: rest) k = (if p.1 = k then 1 else 0) + countKey rest k := rfl

theorem dictGet_cons (p : String × String) (rest : Table) (k : String) :
    dictGet (p :: rest) k = if p.1 = k then some p.2 else dictGet rest k := rfl

theorem setValue_cons (p : String × String) (rest : Table) (k v : String) :
    setValue (p :: rest) k v = (if p.1 = k then (k, v) else p) :: setValue rest k v := rfl

theorem mapApply_cons (us : List (String × String)) (p : String × String) (rest : Table) :
    mapApply us (p :: rest) = (p.1, applyVal us p.1 p.2) :: mapApply us rest := rfl

theorem countKey_append (t1 t2 : Table) (k : String) :
    countKey (t1 ++ t2) k = countKey t1 k + countKey t2 k := by
  induction t1 with
  | nil => simp [countKey]
  | cons p rest ih => simp only [List.cons_append, countKey_cons, ih]; omega

theorem countKey_setValue (t : Table) (k v k' : String) :
    countKey (setValue t k v) k' = countKey t k' := by
  induction t with
  | nil => rfl
  | cons p rest ih =>
      rw [setValue_cons]
      by_cases h : p.1 = k
      · rw [if_pos h, countKey_cons, countKey_cons, ih, h]
      · rw [if_neg h, countKey_cons, countKey_cons, ih]

theorem countKey_eq_zero_iff (t : Table) (k : String) :
    countKey t k = 0 ↔ ∀ p ∈ t, p.1 ≠ k := by
  induction t with
  | nil => simp [countKey]
  | cons p rest ih =>
      by_cases h : p.1 = k <;> simp [countKey_cons, h, ih]

theorem dictGet_eq_none_iff (t : Table) (k : String) :
    dictGet t k = none ↔ countKey t k = 0 := by
  induction t with
  | nil => simp [dictGet, countKey]
  | cons p rest ih =>
      by_cases h : p.1 = k <;> simp [dictGet_cons, countKey_cons, h, ih]

theorem dictGet_append (t1 t2 : Table) (k : String) :
    dictGet (t1 ++ t2) k =
      match dictGet t1 k with
      | some v => some v
      | none => dictGet t2 k := by
  induction t1 with
  | nil => simp [dictGet]
  | cons p rest ih =>
      by_cases h : p.1 = k <;> simp [dictGet_cons, h, ih]

theorem dictGet_setValue (t : Table) (k v k' : String) :
    dictGet (setValue t k v) k' =
      if k = k' then (dictGet t k).map (fun _ => v) else dictGet t k' := by
  induction t with
  | nil => by_cases h : k = k' <;> simp [setValue, dictGet, h]
  | cons p rest ih =>
      rw [setValue_cons]
      by_cases h : p.1 = k
      · subst h
        by_cases h2 : p.1 = k'
        · subst h2
          simp [dictGet_cons, ih]
        · simp [dictGet_cons, h2, ih]
      · by_cases h3 : p.1 = k'
        · subst h3
          have h4 : ¬ (k = p.1) := fun hc => h hc.symm
          simp [dictGet_cons, h, h4]
        · simp [dictGet_cons, h, h3, ih]

theorem dictGet_upsertOne (t : Table) (k v k' : String) :
    dictGet (upsertOne t k v) k' = if k = k' then some v else dictGet t k' := by
  unfold upsertOne
  by_cases h0 : countKey t k = 0
  · have hnone : dictGet t k = none := (dictGet_eq_none_iff t k).2 h0
    rw [if_pos h0, dictGet_append]
    by_cases h' : k = k'
    · subst h'; simp [hnone, dictGet]
    · cases hg : dictGet t k' <;> simp [dictGet, dictGet_cons, h', hg]
  · rw [if_neg h0, dictGet_setValue]
    by_cases h' : k = k'
    · subst h'
      cases hg : dictGet t k with
      | none => exact absurd ((dictGet_eq_none_iff t k).1 hg) h0
      | some w => simp [hg]
    · simp [h']

theorem countKey_upsertOne_ne (t : Table) (k v k' : String) (h : k' ≠ k) :
    countKey (upsertOne t k v) k' = countKey t k' := by
  unfold upsertOne
  by_cases h0 : countKey t k = 0
  · rw [if_pos h0, countKey_append]; simp [countKey_cons, countKey, Ne.symm h]
  · rw [if_neg h0, countKey_setValue]

theorem countKey_upsertOne_self (t : Table) (k v : String) :
    countKey (upsertOne t k v) k ≠ 0 := by
  unfold upsertOne
  by_cases h0 : countKey t k = 0
  · rw [if_pos h0, countKey_append]; simp [countKey_cons, countKey]
  · rw [if_neg h0, countKey_setValue]; exact h0

theorem countKey_applyUpdates (us : List (String × String)) (t : Table) (k : String)
    (h : countKey t k ≠ 0 ∨ k ∈ keysOf us) :
    countKey (applyUpdates t us) k ≠ 0 := by
  induction us generalizing t with
  | nil =>
      rcases h with h | h
      · exact h
      · simp [keysOf] at h
  | cons q rest ih =>
      rcases q with ⟨k0, v0⟩
      show countKey (applyUpdates (upsertOne t k0 v0) rest) k ≠ 0
      apply ih
      by_cases hk : k = k0
      · subst hk; exact Or.inl (countKey_upsertOne_self t k v0)
      · rcases h with h | h
        · exact Or.inl (by rw [countKey_upsertOne_ne t k0 v0 k hk]; exact h)
        · simp [keysOf] at h
          rcases h with h | h
          · exact absurd h hk
          · right; simpa [keysOf] using h

theorem mapApply_nil (t : Table) : mapApply [] t = t := by
  induction t with
  | nil => rfl
  | cons p rest ih =>
      rw [mapApply_cons, ih]
      rfl

theorem mapApply_setValue (rest : List (String × String)) (t : Table) (k0 v0 : String) :
    mapApply rest (setValue t k0 v0) = mapApply ((k0, v0) :: rest) t := by
  induction t with
  | nil => rfl
  | cons p tl ih =>
      rw [setValue_cons]
      by_cases h : p.1 = k0
      · rw [if_pos h, mapApply_cons, mapApply_cons, ih]
        simp [applyVal, h]
      · rw [if_neg h, mapApply_cons, mapApply_cons, ih]
        have h' : ¬ (k0 = p.1) := fun hc => h hc.symm
        simp [applyVal, h']

theorem applyUpdates_eq_mapApply (us : List (String × String)) (t : Table)
    (h : ∀ p ∈ us, countKey t p.1 ≠ 0) :
    applyUpdates t us = mapApply us t := by
  induction us generalizing t with
  | nil => exact (mapApply_nil t).symm
  | cons q rest ih =>
      rcases q with ⟨k0, v0⟩
      have h0 : countKey t k0 ≠ 0 := h (k0, v0) (List.mem_cons_self _ _)
      show applyUpdates (upsertOne t k0 v0) rest = mapApply ((k0, v0) :: rest) t
      have hup : upsertOne t k0 v0 = setValue t k0 v0 := by
        unfold upsertOne; rw [if_neg h0]
      rw [hup, ih (setValue t k0 v0)
        (fun p hp => by rw [countKey_setValue]; exact h p (List.mem_cons_of_mem _ hp)),
        mapApply_setValue]

theorem keysOf_cons (p : String × String) (l : List (String × String)) :
    keysOf (p :: l) = p.1 :: keysOf l := rfl

theorem keysOf_append (l1 l2 : List (String × String)) :
    keysOf (l1 ++ l2) = keysOf l1 ++ keysOf l2 :=
  List.map_append _ _ _

theorem applyUpdates_append (us vs : List (String × String)) (t : Table) :
    applyUpdates t (us ++ vs) = applyUpdates (applyUpdates t us) vs := by
  induction us generalizing t with
  | nil => rfl
  | cons q rest ih =>
      rcases q with ⟨k, v⟩
      exact ih (upsertOne t k v)

theorem applyUpdates_singleton (t : Table) (a b : String) :
    applyUpdates t [(a, b)] = upsertOne t a b := rfl

theorem applyVal_append (us vs : List (String × String)) (k v : String) :
    applyVal (us ++ vs) k v = applyVal vs k (applyVal us k v) := by
  induction us generalizing v with
  | nil => rfl
  | cons q rest ih =>
      rcases q with ⟨k0, v0⟩
      exact ih (if k0 = k then v0 else v)

theorem mem_upsertOne (t : Table) (k v : String) (p : String × String)
    (hp : p ∈ upsertOne t k v) :
    (p.1 = k ∧ p.2 = v) ∨ (p ∈ t ∧ p.1 ≠ k) := by
  unfold upsertOne at hp
  by_cases h0 : countKey t k = 0
  · rw [if_pos h0] at hp
    rcases List.mem_append.1 hp with h | h
    · exact Or.inr ⟨h, ((countKey_eq_zero_iff t k).1 h0) p h⟩
    · rcases List.mem_singleton.1 h with rfl
      exact Or.inl ⟨rfl, rfl⟩
  · rw [if_neg h0] at hp
    rcases List.mem_map.1 hp with ⟨q, hq, hfq⟩
    by_cases hk : q.1 = k
    · rw [if_pos hk] at hfq
      rcases hfq.symm with rfl
      exact Or.inl ⟨rfl, rfl⟩
    · rw [if_neg hk] at hfq
      rcases hfq.symm with rfl
      exact Or.inr ⟨hq, hk⟩

theorem applyVal_of_not_mem (us : List (String × String)) (k v : String)
    (h : k ∉ keysOf us) : applyVal us k v = v := by
  induction us generalizing v with
  | nil => rfl
  | cons q rest ih =>
      rcases q with ⟨k0, v0⟩
      rw [keysOf_cons] at h
      have h1 : ¬ (k0 = k) := fun hc => h (by simp [hc])
      have h2 : k ∉ keysOf rest := fun hc => h (List.mem_cons_of_mem _ hc)
      show applyVal rest k (if k0 = k then v0 else v) = v
      rw [if_neg h1]
      exact ih v h2

theorem applyVal_applyUpdates_mem (us : List (String × String)) (t : Table) :
    ∀ p ∈ applyUpdates t us, p.1 ∈ keysOf us → applyVal us p.1 p.2 = p.2 := by
  induction us using List.reverseRecOn with
  | nil => intro p _ hk; simp [keysOf] at hk
  | append_singleton us q ih =>
      rcases q with ⟨a, b⟩
      intro p hp hk
      rw [applyUpdates_append, applyUpdates_singleton] at hp
      rcases mem_upsertOne _ a b p hp with ⟨h1, h2⟩ | ⟨h1, h2⟩
      · rw [applyVal_append]
        show applyVal [] p.1 (if a = p.1 then b else applyVal us p.1 p.2) = p.2
        rw [if_pos h1.symm]
        exact h2.symm ▸ rfl
      · rw [keysOf_append] at hk
        rcases List.mem_append.1 hk with hmem | hmem
        · rw [applyVal_append]
          show applyVal [] p.1 (if a = p.1 then b else applyVal us p.1 p.2) = p.2
          rw [if_neg (fun hc => h2 hc.symm)]
          exact ih p h1 hmem
        · exact absurd (List.mem_singleton.1 hmem) h2
      
theorem mapApply_eq_self (us : List (String × String)) (t : Table)
    (h : ∀ p ∈ t, applyVal us p.1 p.2 = p.2) : mapApply us t = t := by
  induction t with
  | nil => rfl
  | cons p rest ih =>
      rw [mapApply_cons, h p (List.mem_cons_self _ _),
        ih (fun q hq => h q (List.mem_cons_of_mem _ hq))]

theorem applyUpdates_idem (t : Table) (us : List (String × String)) :
    applyUpdates (applyUpdates t us) us = applyUpdates t us := by
  have hpres : ∀ p ∈ us, countKey (applyUpdates t us) p.1 ≠ 0 := fun p hp =>
    countKey_applyUpdates us t p.1 (Or.inr (List.mem_map_of_mem Prod.fst hp))
  rw [applyUpdates_eq_mapApply us _ hpres]
  apply mapApply_eq_self
  intro p hp
  by_cases hk : p.1 ∈ keysOf us
  · exact applyVal_applyUpdates_mem us t p hp hk
  · exact applyVal_of_not_mem us p.1 p.2 hk

/-! ## Lemmas for `applyIOR` (the `INSERT OR REPLACE` loop) -/

theorem removeKeys_nil_keys (t : Table) : removeKeys t [] = t := by
  induction t with
  | nil => rfl
  | cons p rest ih => simp [removeKeys, ih]

theorem removeKeys_append (t1 t2 : Table) (ks : List String) :
    removeKeys (t1 ++ t2) ks = removeKeys t1 ks ++ removeKeys t2 ks := by
  induction t1 with
  | nil => rfl
  | cons p rest ih =>
      by_cases h : p.1 ∈ ks <;> simp [removeKeys, h, ih]

theorem removeKeys_eraseKey (t : Table) (k : String) (ks : List String) :
    removeKeys (eraseKey t k) ks = removeKeys t (k :: ks) := by
  induction t with
  | nil => rfl
  | cons p rest ih =>
      by_cases h : p.1 = k
      · simp [eraseKey, removeKeys, h, ih]
      · by_cases h2 : p.1 ∈ ks <;> simp [eraseKey, removeKeys, h, h2, ih]

theorem removeKeys_removeKeys (t : Table) (ks : List String) :
    removeKeys (removeKeys t ks) ks = removeKeys t ks := by
  induction t with
  | nil => rfl
  | cons p rest ih =>
      by_cases h : p.1 ∈ ks <;> simp [removeKeys, h, ih]

theorem removeKeys_eq_nil (t : Table) (ks : List String)
    (h : ∀ p ∈ t, p.1 ∈ ks) : removeKeys t ks = [] := by
  induction t with
  | nil => rfl
  | cons p rest ih =>
      simp [removeKeys, h p (List.mem_cons_self _ _),
        ih (fun q hq => h q (List.mem_cons_of_mem _ hq))]

theorem mem_eraseKey (t : Table) (k : String) (p : String × String)
    (hp : p ∈ eraseKey t k) : p ∈ t := by
  induction t with
  | nil => simp [eraseKey] at hp
  | cons q rest ih =>
      by_cases h : q.1 = k
      · rw [eraseKey, if_pos h] at hp
        exact List.mem_cons_of_mem _ (ih hp)
      · rw [eraseKey, if_neg h] at hp
        rcases List.mem_cons.1 hp with rfl | hp
        · exact List.mem_cons_self _ _
        · exact List.mem_cons_of_mem _ (ih hp)

theorem mem_applyIOR (us : List (String × String)) (t : Table) (p : String × String)
    (hp : p ∈ applyIOR t us) : p.1 ∈ keysOf us ∨ p ∈ t := by
  induction us generalizing t with
  | nil => exact Or.inr hp
  | cons q rest ih =>
      rcases q with ⟨k0, v0⟩
      rcases ih (eraseKey t k0 ++ [(k0, v0)]) hp with h | h
      · exact Or.inl (by simp [keysOf_cons]; right; simpa [keysOf] using h)
      · rcases List.mem_append.1 h with h | h
        · exact Or.inr (mem_eraseKey t k0 p h)
        · rcases List.mem_singleton.1 h with rfl
          exact Or.inl (by simp [keysOf_cons])

theorem applyIOR_char (us : List (String × String)) (t : Table) :
    applyIOR t us = removeKeys t (keysOf us) ++ applyIOR [] us := by
  induction us generalizing t with
  | nil => rw [keysOf]; simp [removeKeys_nil_keys, applyIOR]
  | cons q rest ih =>
      rcases q with ⟨k0, v0⟩
      show applyIOR (eraseKey t k0 ++ [(k0, v0)]) rest = _
      rw [ih (eraseKey t k0 ++ [(k0, v0)]), removeKeys_append, removeKeys_eraseKey]
      have hnil : applyIOR [] ((k0, v0) :: rest) = applyIOR [(k0, v0)] rest := rfl
      rw [keysOf_cons, hnil, ih [(k0, v0)], List.append_assoc]

theorem applyIOR_idem (t : Table) (us : List (String × String)) :
    applyIOR (applyIOR t us) us = applyIOR t us := by
  have hN : ∀ p ∈ applyIOR ([] : Table) us, p.1 ∈ keysOf us := fun p hp => by
    rcases mem_applyIOR us [] p hp with h | h
    · exact h
    · simp at h
  rw [applyIOR_char us (applyIOR t us), applyIOR_char us t, removeKeys_append,
    removeKeys_removeKeys, removeKeys_eq_nil _ _ hN, List.append_nil]

/-! ## The transaction of `update_auth` -/

theorem runTx_none (us : List (String × String)) (tbl : Table) (i : Nat) :
    runTx none tbl us i = Except.ok (applyUpdates tbl us) := by
  induction us generalizing tbl i with
  | nil => simp [runTx, applyUpdates]
  | cons q rest ih =>
      rcases q with ⟨k, v⟩
      simp [runTx, applyUpdates, ih]

theorem runTx_fault (us : List (String × String)) (tbl : Table) (i j : Nat)
    (h1 : i ≤ j) (h2 : j ≤ i + us.length) :
    runTx (some j) tbl us i = Except.error () := by
  induction us generalizing tbl i with
  | nil =>
      have : j = i := by simp at h2; omega
      simp [runTx, this]
  | cons q rest ih =>
      rcases q with ⟨k, v⟩
      by_cases hj : j = i
      · simp [runTx, hj]
      · have h1' : i + 1 ≤ j := by omega
        have h2' : j ≤ i + 1 + rest.length := by simp at h2; omega
        simp [runTx, Ne.symm (fun hc => hj hc.symm) , hj]
        exact ih (upsertOne tbl k v) (i + 1) h1' h2'

theorem update_auth_txFails (fault : Option Nat) (st : FileState) (e a r : Option String)
    (h : txFails fault st e a r = true) :
    (update_auth fault st e a r).1 = false
      ∧ rowsOf (update_auth fault st e a r).2 = rowsOf st := by
  have hfault : st = FileState.noTable
      ∨ ∃ i, fault = some i ∧ i ≤ (authUpdates e a r).length := by
    simp only [txFails, Bool.or_eq_true, decide_eq_true_eq] at h
    rcases h with h | h
    · exact Or.inl h
    · cases fault with
      | none => simp at h
      | some i => exact Or.inr ⟨i, rfl, by simpa using h⟩
  cases st with
  | noTable => exact ⟨rfl, rfl⟩
  | noFile =>
      rcases hfault with h | ⟨i, rfl, hle⟩
      · exact absurd h (by simp)
      · have hrun : runTx (some i) [] (authUpdates e a r) 0 = Except.error () :=
          runTx_fault _ _ 0 i (Nat.zero_le i) (by simpa using hle)
      
        exact ⟨by simp [update_auth, hrun], by simp [update_auth, hrun, rowsOf]⟩
  | table t =>
      rcases hfault with h | ⟨i, rfl, hle⟩
      · exact absurd h (by simp)
      · have hrun : runTx (some i) t (authUpdates e a r) 0 = Except.error () :=
          runTx_fault _ _ 0 i (Nat.zero_le i) (by simpa using hle)
        exact ⟨by simp [update_auth, hrun], by simp [update_auth, hrun, rowsOf]⟩

theorem update_auth_no_fault (st : FileState) (e a r : Option String) :
    update_auth none st e a r =
      match st with
      | FileState.noTable => (false, FileState.noTable)
      | FileState.noFile => (true, FileState.table (applyUpdates [] (authUpdates e a r)))
      | FileState.table t => (true, FileState.table (applyUpdates t (authUpdates e a r))) := by
  cases st <;> simp [update_auth, runTx_none]

theorem dictGet_applyUpdates (us : List (String × String)) (t : Table) (k : String) :
    dictGet (applyUpdates t us) k = applyValOpt us k (dictGet t k) := by
  induction us generalizing t with
  | nil => rfl
  | cons q rest ih =>
      rcases q with ⟨k0, v0⟩
      show dictGet (applyUpdates (upsertOne t k0 v0) rest) k
        = applyValOpt rest k (if k0 = k then some v0 else dictGet t k)
      rw [ih (upsertOne t k0 v0), dictGet_upsertOne]

theorem applyValOpt_authUpdates_sign (e a r : Option String) (o : Option String) :
    applyValOpt (authUpdates e a r) "cursorAuth/cachedSignUpType" o = some "Auth_0" := by
  cases e <;> cases a <;> cases r <;> simp [authUpdates, applyValOpt]

theorem applyValOpt_authUpdates_email (e a r : Option String) (s : String)
    (he : e = some s) (o : Option String) :
    applyValOpt (authUpdates e a r) "cursorAuth/cachedEmail" o = some s := by
  subst he
  cases a <;> cases r <;> simp [authUpdates, applyValOpt]

theorem applyValOpt_authUpdates_access (e a r : Option String) (s : String)
    (ha : a = some s) (o : Option String) :
    applyValOpt (authUpdates e a r) "cursorAuth/accessToken" o = some s := by
  subst ha
  cases e <;> cases r <;> simp [authUpdates, applyValOpt]

theorem applyValOpt_authUpdates_refresh (e a r : Option String) (s : String)
    (hr : r = some s) (o : Option String) :
    applyValOpt (authUpdates e a r) "cursorAuth/refreshToken" o = some s := by
  subst hr
  cases e <;> cases a <;> simp [authUpdates, applyValOpt]

/-- C1: if any statement executed inside `CursorAuth.update_auth`'s
transaction raises an exception, the transaction is rolled back — the
contents of `ItemTable` after the call are exactly what they were before
the call — and `update_auth` returns `False` rather than propagating the
exception. -/
theorem C1_update_auth_rollback (fault : Option Nat) (st : FileState)
    (e a r : Option String) (h : txFails fault st e a r = true) :
    (update_auth fault st e a r).1 = false
      ∧ rowsOf (update_auth fault st e a r).2 = rowsOf st :=
  update_auth_txFails fault st e a r h

theorem C1_update_auth_rollback_witness :
    txFails (some 0) (FileState.table [("k0", "v0")]) none none none = true
      ∧ ((update_auth (some 0) (FileState.table [("k0", "v0")]) none none none).1 = false
         ∧ rowsOf (update_auth (some 0) (FileState.table [("k0", "v0")]) none none none).2
           = rowsOf (FileState.table [("k0", "v0")])) :=
  ⟨by decide,
   C1_update_auth_rollback (some 0) (FileState.table [("k0", "v0")]) none none none (by decide)⟩

/-- C2: the SQLite upsert is idempotent — for every database state and
argument triple, running `CursorAuth.update_auth` twice with the same
arguments ends in the same `ItemTable` state as running it once, and
likewise `MachineIDResetter.update_sqlite_db` applied twice with the same
`new_ids` yields the same end state as applying it once. -/
theorem C2_upsert_idempotent (st st2 : FileState) (e a r : Option String)
    (new_ids : List (String × String)) :
    (update_auth none (update_auth none st e a r).2 e a r).2 = (update_auth none st e a r).2
      ∧ (update_sqlite_db (update_sqlite_db st2 new_ids).2 new_ids).2
        = (update_sqlite_db st2 new_ids).2 := by
  constructor
  · cases st <;> simp [update_auth_no_fault, applyUpdates_idem]
  · simp [update_sqlite_db, rowsOf, applyIOR_idem]

/-- C4 counterexample: when the database file exists but contains no
`ItemTable` table, `update_auth` does not create the table (the `CREATE
TABLE` branch runs only when the file is missing); the first `SELECT`
raises, so the call returns `False` instead of upserting and returning
`True`. -/
theorem C4_counterexample :
    update_auth none FileState.noTable (some "user@example.com") (some "token-a")
        (some "token-r")
      = (false, FileState.noTable) := by decide

/-- C4 (amended): when the database file is missing, `update_auth` creates
it with an `ItemTable(key, value)` table and upserts the fixed key set,
returning `True`; likewise when the file exists with `ItemTable`.  The
upserted keys are `cursorAuth/cachedSignUpType` (always, value `Auth_0`)
and, when the corresponding argument is not `None`,
`cursorAuth/cachedEmail`, `cursorAuth/accessToken` and
`cursorAuth/refreshToken`.  But when the file exists without an
`ItemTable` table the call returns `False` and leaves the state
unchanged. -/
theorem C4_amended_update_auth (st : FileState) (e a r : Option String) :
    (update_auth none FileState.noTable e a r = (false, FileState.noTable))
    ∧ (st ≠ FileState.noTable →
        (update_auth none st e a r).1 = true
        ∧ (update_auth none st e a r).2
            = FileState.table (applyUpdates (rowsOf st) (authUpdates e a r))
        ∧ dictGet (rowsOf (update_auth none st e a r).2) "cursorAuth/cachedSignUpType"
            = some "Auth_0"
        ∧ (∀ s, e = some s →
            dictGet (rowsOf (update_auth none st e a r).2) "cursorAuth/cachedEmail" = some s)
        ∧ (∀ s, a = some s →
            dictGet (rowsOf (update_auth none st e a r).2) "cursorAuth/accessToken" = some s)
        ∧ (∀ s, r = some s →
            dictGet (rowsOf (update_auth none st e a r).2) "cursorAuth/refreshToken"
              = some s)) := by
  constructor
  · rw [update_auth_no_fault]
  · intro hst
    cases st with
    | noTable => exact absurd rfl hst
    | noFile =>
        refine ⟨by simp [update_auth_no_fault], by simp [update_auth_no_fault, rowsOf], ?_, ?_, ?_, ?_⟩
        · simp [update_auth_no_fault, rowsOf, dictGet_applyUpdates,
            applyValOpt_authUpdates_sign]
        · intro s hs
          simp [update_auth_no_fault, rowsOf, dictGet_applyUpdates,
            applyValOpt_authUpdates_email e a r s hs]
        · intro s hs
          simp [update_auth_no_fault, rowsOf, dictGet_applyUpdates,
            applyValOpt_authUpdates_access e a r s hs]
        · intro s hs
          simp [update_auth_no_fault, rowsOf, dictGet_applyUpdates,
            applyValOpt_authUpdates_refresh e a r s hs]
    | table t =>
        refine ⟨by simp [update_auth_no_fault], by simp [update_auth_no_fault, rowsOf], ?_, ?_, ?_, ?_⟩
        · simp [update_auth_no_fault, rowsOf, dictGet_applyUpdates,
            applyValOpt_authUpdates_sign]
        · intro s hs
          simp [update_auth_no_fault, rowsOf, dictGet_applyUpdates,
            applyValOpt_authUpdates_email e a r s hs]
        · intro s hs
          simp [update_auth_no_fault, rowsOf, dictGet_applyUpdates,
            applyValOpt_authUpdates_access e a r s hs]
        · intro s hs
          simp [update_auth_no_fault, rowsOf, dictGet_applyUpdates,
            applyValOpt_authUpdates_refresh e a r s hs]

theorem C4_amended_update_auth_witness :
    (update_auth none FileState.noFile (some "u@example.com") (some "tok-a") (some "tok-r")).1
        = true
      ∧ dictGet
          (rowsOf (update_auth none FileState.noFile (some "u@example.com") (some "tok-a")
            (some "tok-r")).2) "cursorAuth/cachedEmail" = some "u@example.com" := by
  have h := (C4_amended_update_auth FileState.noFile (some "u@example.com") (some "tok-a")
    (some "tok-r")).2 (by decide)
  exact ⟨h.1, h.2.2.2.1 "u@example.com" rfl⟩

/-! ## `version_check` -/

theorem parseVersionOpt_of_matches (s : String) (h : matchesVersionPattern s = true) :
    parseVersionOpt s = some (parseVer s) := by
  unfold matchesVersionPattern at h
  unfold parseVersionOpt parseVer
  rcases hv : versionParts s with _ | ⟨a, _ | ⟨b, _ | ⟨c, _ | ⟨d, tl⟩⟩⟩⟩ <;> simp_all

theorem matchesVersionPattern_ne_empty (s : String)
    (h : matchesVersionPattern s = true) : s ≠ "" := by
  intro hc
  rw [hc] at h
  exact absurd h (by decide)

theorem version_check_iff (v mn mx : String)
    (hv : matchesVersionPattern v = true)
    (hmn : mn = "" ∨ matchesVersionPattern mn = true)
    (hmx : mx = "" ∨ matchesVersionPattern mx = true) :
    (version_check v mn mx = true ↔
      ((mn = "" ∨ tupLt (parseVer v) (parseVer mn) = false)
        ∧ (mx = "" ∨ tupLt (parseVer mx) (parseVer v) = false))) := by
  have hpv := parseVersionOpt_of_matches v hv
  rcases hmn with hm | hm
  · subst hm
    rcases hmx with hx | hx
    · subst hx
      simp [version_check, hv, hpv, versionCheckMax]
    · have hpx := parseVersionOpt_of_matches mx hx
      have hnex : mx ≠ "" := matchesVersionPattern_ne_empty mx hx
      cases htl : tupLt (parseVer mx) (parseVer v) <;>
        simp [version_check, hv, hpv, versionCheckMax, hpx, htl, hnex]
  · have hpm := parseVersionOpt_of_matches mn hm
    have hnem : mn ≠ "" := matchesVersionPattern_ne_empty mn hm
    rcases hmx with hx | hx
    · subst hx
      cases htl : tupLt (parseVer v) (parseVer mn) <;>
        simp [version_check, hv, hpv, hpm, versionCheckMax, htl, hnem]
    · have hpx := parseVersionOpt_of_matches mx hx
      have hnex : mx ≠ "" := matchesVersionPattern_ne_empty mx hx
      cases htl : tupLt (parseVer v) (parseVer mn) <;>
        cases htl2 : tupLt (parseVer mx) (parseVer v) <;>
          simp [version_check, hv, hpv, hpm, hpx, versionCheckMax, htl, htl2, hnem, hnex]

/-- C3: for every version string matching `^\d+\.\d+\.\d+$`,
`version_check` returns `True` iff the integer-component tuple of the
version is at least that of `min_version` (when non-empty) and at most
that of `max_version` (when non-empty), the comparison being numeric per
component (so `0.45.0 < 0.46.0` and `0.9.0 < 0.10.0`); for every version
string not matching the pattern it returns `False`. -/
theorem C3_version_check (v mn mx : String) :
    (matchesVersionPattern v = false → version_check v mn mx = false)
    ∧ (matchesVersionPattern v = true →
        (mn = "" ∨ matchesVersionPattern mn = true) →
        (mx = "" ∨ matchesVersionPattern mx = true) →
        (version_check v mn mx = true ↔
          ((mn = "" ∨ tupLt (parseVer v) (parseVer mn) = false)
            ∧ (mx = "" ∨ tupLt (parseVer mx) (parseVer v) = false))))
    ∧ tupLt (parseVer "0.45.0") (parseVer "0.46.0") = true
    ∧ tupLt (parseVer "0.9.0") (parseVer "0.10.0") = true := by
  refine ⟨fun h => ?_, fun hv hmn hmx => version_check_iff v mn mx hv hmn hmx,
    by decide, by decide⟩
  simp [version_check, h]

theorem C3_version_check_witness :
    version_check "0.45.0" "" "0.46.0" = true
      ∧ version_check "0.45.0" "0.46.0" "" = false
      ∧ version_check "0.45" "" "" = false := by
  have h1 := ((C3_version_check "0.45.0" "" "0.46.0").2.1 (by decide) (Or.inl rfl)
    (Or.inr (by decide))).mpr (by decide)
  have h2 := (C3_version_check "0.45" "" "").1 (by decide)
  refine ⟨h1, ?_, h2⟩
  have h3 := (C3_version_check "0.45.0" "0.46.0" "").2.1 (by decide) (Or.inr (by decide))
    (Or.inl rfl)
  cases hb : version_check "0.45.0" "0.46.0" "" with
  | false => rfl
  | true =>
      rcases (h3.mp hb).1 with h4 | h4
      · exact absurd h4 (by decide)
      · exact absurd h4 (by decide)

/-! ## Error handling (C5), backups (C6), turnstile loop (C8) -/

/-- C5 counterexample: `CursorAuth.__init__` terminates the process with
`sys.exit(1)` when configuration loading fails, and
`MachineIDResetter.__init__` lets `FileNotFoundError` propagate to its
caller when the config file is missing — two failing operations that do
not follow the print-and-return-False pattern. -/
theorem C5_counterexample :
    cursorAuthInit false Platform.linux true true true true true = InitOutcome.exited 1
      ∧ machineIDResetterInit false Platform.linux true
        = MirInitOutcome.raised "FileNotFoundError" := by decide

/-- C5 (amended): the modelled operations (`update_auth`,
`handle_turnstile`) do follow the uniform pattern — exceptions are caught
and the operation returns `False` — but the two constructors do not.
`CursorAuth.__init__` calls `sys.exit(1)` whenever configuration loading
fails, whenever the platform is unsupported, and whenever the database
path cannot be determined (platform section not configured, or the
database directory missing — both caught and turned into `sys.exit(1)` at
cursor_auth.py lines 87-89); `MachineIDResetter.__init__` raises
`FileNotFoundError` when the config file is missing, `EnvironmentError`
when `APPDATA` is unset on Windows, and `NotImplementedError` on an
unsupported OS, all propagating to its caller. -/
theorem C5_amended_error_pattern :
    (∀ (fault : Option Nat) (st : FileState) (e a r : Option String),
        txFails fault st e a r = true → (update_auth fault st e a r).1 = false)
    ∧ (∀ att : Nat → AttemptOracle, handle_turnstile true att = false)
    ∧ (∀ (p : Platform) (pc de db ao co : Bool),
        cursorAuthInit false p pc de db ao co = InitOutcome.exited 1)
    ∧ (∀ pc de db ao co : Bool,
        cursorAuthInit true Platform.other pc de db ao co = InitOutcome.exited 1)
    ∧ (∀ (p : Platform) (de db ao co : Bool), p ≠ Platform.other →
        cursorAuthInit true p false de db ao co = InitOutcome.exited 1)
    ∧ (∀ (p : Platform) (db ao co : Bool), p ≠ Platform.other →
        cursorAuthInit true p true false db ao co = InitOutcome.exited 1)
    ∧ (∀ (p : Platform) (ap : Bool),
        machineIDResetterInit false p ap = MirInitOutcome.raised "FileNotFoundError")
    ∧ machineIDResetterInit true Platform.win32 false
        = MirInitOutcome.raised "EnvironmentError"
    ∧ (∀ ap : Bool, machineIDResetterInit true Platform.other ap
        = MirInitOutcome.raised "NotImplementedError") :=
  ⟨fun fault st e a r h => (update_auth_txFails fault st e a r h).1,
   fun _ => rfl,
   fun _ _ _ _ _ _ => rfl,
   fun _ _ _ _ _ => rfl,
   fun p _ _ _ _ hp => by
     cases p with
     | other => exact absurd rfl hp
     | win32 => rfl
     | linux => rfl
     | darwin => rfl,
   fun p _ _ _ hp => by
     cases p with
     | other => exact absurd rfl hp
     | win32 => rfl
     | linux => rfl
     | darwin => rfl,
   fun _ _ => rfl,
   rfl,
   fun _ => rfl⟩

theorem C5_amended_error_pattern_witness :
    txFails (some 0) (FileState.table []) none none none = true
      ∧ (update_auth (some 0) (FileState.table []) none none none).1 = false
      ∧ handle_turnstile true (fun _ => ⟨false, false, false, false⟩) = false
      ∧ cursorAuthInit false Platform.win32 true true true true true = InitOutcome.exited 1
      ∧ cursorAuthInit true Platform.other true true true true true = InitOutcome.exited 1
      ∧ cursorAuthInit true Platform.linux false true true true true = InitOutcome.exited 1
      ∧ cursorAuthInit true Platform.darwin true false true true true = InitOutcome.exited 1
      ∧ machineIDResetterInit false Platform.darwin true
        = MirInitOutcome.raised "FileNotFoundError"
      ∧ machineIDResetterInit true Platform.win32 false
        = MirInitOutcome.raised "EnvironmentError"
      ∧ machineIDResetterInit true Platform.other true
        = MirInitOutcome.raised "NotImplementedError" :=
  ⟨by decide,
   C5_amended_error_pattern.1 (some 0) (FileState.table []) none none none (by decide),
   C5_amended_error_pattern.2.1 (fun _ => ⟨false, false, false, false⟩),
   C5_amended_error_pattern.2.2.1 Platform.win32 true true true true true,
   C5_amended_error_pattern.2.2.2.1 true true true true true,
   C5_amended_error_pattern.2.2.2.2.1 Platform.linux true true true true (by decide),
   C5_amended_error_pattern.2.2.2.2.2.1 Platform.darwin true true true (by decide),
   C5_amended_error_pattern.2.2.2.2.2.2.1 Platform.darwin true,
   C5_amended_error_pattern.2.2.2.2.2.2.2.1,
   C5_amended_error_pattern.2.2.2.2.2.2.2.2 true⟩

/-- C6: the JS patchers never mutate a target file without a backup copy
existing — `modify_workbench_js` and `modify_main_js` return `False`
leaving the file unchanged when creating the backup fails, and whenever
the content of the target changes the `.backup` file exists afterwards (holding
the pre-existing backup, or a copy of the file taken before the write);
`update_storage_json` copies `storage.json` to `.bak` before overwriting
it whenever `storage.json` exists. -/
theorem C6_backup_before_mutation :
    (∀ (cf pf am : Bool) (subst : String → String) (fs : FsFile),
        (fs.backup = none → cf = true →
          modify_workbench_js cf pf am subst fs = (false, fs))
        ∧ ((modify_workbench_js cf pf am subst fs).2.target ≠ fs.target →
            (modify_workbench_js cf pf am subst fs).2.backup
              = some (fs.backup.getD fs.target)))
    ∧ (∀ (cf am : Bool) (subst : String → String) (fs : FsFile),
        (fs.backup = none → cf = true → modify_main_js cf am subst fs = (false, fs))
        ∧ ((modify_main_js cf am subst fs).2.target ≠ fs.target →
            (modify_main_js cf am subst fs).2.backup = some (fs.backup.getD fs.target)))
    ∧ (∀ (sfs : StorageFS) (data new_ids : List (String × String)),
        sfs.storage = some data →
        (update_storage_json sfs new_ids).2.bak = some data) := by
  refine ⟨fun cf pf am subst fs => ⟨fun hb hcf => ?_, fun hne => ?_⟩,
    fun cf am subst fs => ⟨fun hb hcf => ?_, fun hne => ?_⟩,
    fun sfs data new_ids hs => ?_⟩
  · simp [modify_workbench_js, hb, hcf]
  · by_cases hb : fs.backup = none
    · cases hcf : cf with
      | true =>
          have hres : modify_workbench_js cf pf am subst fs = (false, fs) := by
            simp [modify_workbench_js, hb, hcf]
          rw [hres] at hne
          exact absurd rfl hne
      | false =>
          cases pf <;> cases am <;>
            simp [modify_workbench_js, hb, hcf]
    · rcases hob : fs.backup with _ | b
      · exact absurd hob hb
      · cases cf <;> cases pf <;> cases am <;>
          simp [modify_workbench_js, hob]
  · simp [modify_main_js, hb, hcf]
  · by_cases hb : fs.backup = none
    · cases hcf : cf with
      | true =>
          have hres : modify_main_js cf am subst fs = (false, fs) := by
            simp [modify_main_js, hb, hcf]
          rw [hres] at hne
          exact absurd rfl hne
      | false =>
          cases am <;> simp [modify_main_js, hb, hcf]
    · rcases hob : fs.backup with _ | b
      · exact absurd hob hb
      · cases cf <;> cases am <;> simp [modify_main_js, hob]
  · simp [update_storage_json, hs]

theorem C6_backup_before_mutation_witness :
    modify_workbench_js true false false (fun s => s) { target := "t", backup := none }
        = (false, { target := "t", backup := none })
      ∧ (modify_main_js false false (fun s => s ++ "!")
          { target := "t", backup := none }).2.backup = some "t"
      ∧ (update_storage_json { storage := some [("a", "1")], bak := none }
          [("telemetry.machineId", "m")]).2.bak = some [("a", "1")] := by
  refine ⟨C6_backup_before_mutation.1 true false false (fun s => s)
      { target := "t", backup := none } |>.1 rfl rfl, ?_, ?_⟩
  · exact C6_backup_before_mutation.2.1 false false (fun s => s ++ "!")
      { target := "t", backup := none } |>.2 (by decide)
  · exact C6_backup_before_mutation.2.2 { storage := some [("a", "1")], bak := none }
      [("a", "1")] [("telemetry.machineId", "m")] rfl

/-- C8: `handle_turnstile` performs at most 2 verification attempts
(`max_retries = 2`) and always terminates with a boolean: it returns
`True` exactly when some of the first two attempts reports verification
success (and no attempt beyond the first two is consulted), `False` after
exhausting the retries, and `False` on an exception outside the loop —
it never raises to its caller. -/
theorem C8_handle_turnstile (o : Bool) (att att2 : Nat → AttemptOracle) :
    (handle_turnstile o att = true ↔
      (o = false ∧ (attemptSucceeds (att 0) = true ∨ attemptSucceeds (att 1) = true)))
    ∧ (att 0 = att2 0 → att 1 = att2 1 → handle_turnstile o att = handle_turnstile o att2)
    ∧ maxRetries = 2 := by
  refine ⟨?_, fun h0 h1 => ?_, rfl⟩
  · cases o with
    | true => simp [handle_turnstile]
    | false =>
        cases h0 : attemptSucceeds (att 0) <;> cases h1 : attemptSucceeds (att 1) <;>
          simp [handle_turnstile, maxRetries, turnstileLoop, h0, h1]
  · cases o with
    | true => rfl
    | false => simp [handle_turnstile, maxRetries, turnstileLoop, h0, h1]

theorem C8_handle_turnstile_witness :
    handle_turnstile false (fun _ => ⟨false, true, true, false⟩) = true
      ∧ handle_turnstile false (fun _ => ⟨false, false, false, false⟩) = false :=
  ⟨(C8_handle_turnstile false (fun _ => ⟨false, true, true, false⟩)
      (fun _ => ⟨false, true, true, false⟩)).1.mpr ⟨rfl, Or.inl (by decide)⟩,
   by
    have h := (C8_handle_turnstile false (fun _ => ⟨false, false, false, false⟩)
      (fun _ => ⟨false, false, false, false⟩)).1
    cases hb : handle_turnstile false (fun _ => ⟨false, false, false, false⟩) with
    | false => rfl
    | true =>
        rcases (h.mp hb).2 with h2 | h2 <;> exact absurd h2 (by decide)⟩

/-! ## `generate_new_ids` (C9) -/

theorem bytesHexChars_length (bs : List Nat) :
    (bytesHexChars bs).length = 2 * bs.length := by
  induction bs with
  | nil => rfl
  | cons b rest ih =>
      simp [bytesHexChars, byteHexChars, List.length_append, ih]
      omega

theorem hexChar_lower : ∀ n, n < 16 → isLowerHex (hexChar n) = true := by decide

theorem hexChar_upper : ∀ n, n < 16 → isUpperHex (asciiUpper (hexChar n)) = true := by decide

theorem mem_bytesHexChars (bs : List Nat) (c : Char) (hc : c ∈ bytesHexChars bs) :
    ∃ n, n < 16 ∧ c = hexChar n := by
  induction bs with
  | nil => simp [bytesHexChars] at hc
  | cons b rest ih =>
      rcases List.mem_append.1 hc with h | h
      · rcases List.mem_cons.1 h with rfl | h
        · exact ⟨b / 16 % 16, Nat.mod_lt _ (by omega), rfl⟩
        · rcases List.mem_singleton.1 h with rfl
          exact ⟨b % 16, Nat.mod_lt _ (by omega), rfl⟩
      · exact ih h

theorem bytesHexChars_all_lower (bs : List Nat) :
    (bytesHexChars bs).all isLowerHex = true := by
  rw [List.all_eq_true]
  intro c hc
  rcases mem_bytesHexChars bs c hc with ⟨n, hn, rfl⟩
  exact hexChar_lower n hn

theorem bytesHexChars_map_upper (bs : List Nat) :
    ((bytesHexChars bs).map asciiUpper).all isUpperHex = true := by
  rw [List.all_eq_true]
  intro c hc
  rcases List.mem_map.1 hc with ⟨d, hd, rfl⟩
  rcases mem_bytesHexChars bs d hd with ⟨n, hn, rfl⟩
  exact hexChar_upper n hn

theorem asciiUpper_dash : asciiUpper '-' = '-' := by decide

/-- C9: `MachineIDResetter.generate_new_ids` returns a dict with exactly
the five keys `telemetry.devDeviceId`, `telemetry.macMachineId`,
`telemetry.machineId`, `telemetry.sqmId` and `storage.serviceMachineId`;
`telemetry.machineId` is a 64-character lowercase-hex string (sha256
hexdigest), `telemetry.macMachineId` a 128-character lowercase-hex string
(sha512 hexdigest), `telemetry.sqmId` an uppercase UUID wrapped in braces,
and `storage.serviceMachineId` equals `telemetry.devDeviceId`. -/
theorem C9_generate_new_ids (devBytes d256 d512 sqmBytes : List Nat)
    (h256 : d256.length = 32) (h512 : d512.length = 64)
    (hsqm : sqmBytes.length = 16) :
    (generate_new_ids devBytes d256 d512 sqmBytes).map Prod.fst
        = ["telemetry.devDeviceId", "telemetry.macMachineId", "telemetry.machineId",
           "telemetry.sqmId", "storage.serviceMachineId"]
    ∧ dictGet (generate_new_ids devBytes d256 d512 sqmBytes) "telemetry.machineId"
        = some (hexdigest d256)
    ∧ (hexdigest d256).length = 64
    ∧ (hexdigest d256).data.all isLowerHex = true
    ∧ dictGet (generate_new_ids devBytes d256 d512 sqmBytes) "telemetry.macMachineId"
        = some (hexdigest d512)
    ∧ (hexdigest d512).length = 128
    ∧ (hexdigest d512).data.all isLowerHex = true
    ∧ dictGet (generate_new_ids devBytes d256 d512 sqmBytes) "telemetry.sqmId"
        = some ("\x7b" ++ pyUpper (uuidStr sqmBytes) ++ "\x7d")
    ∧ (∃ g1 g2 g3 g4 g5 : List Char,
        (pyUpper (uuidStr sqmBytes)).data
            = g1 ++ '-' :: (g2 ++ '-' :: (g3 ++ '-' :: (g4 ++ '-' :: g5)))
          ∧ g1.length = 8 ∧ g2.length = 4 ∧ g3.length = 4 ∧ g4.length = 4
          ∧ g5.length = 12
          ∧ (g1 ++ g2 ++ g3 ++ g4 ++ g5).all isUpperHex = true)
    ∧ dictGet (generate_new_ids devBytes d256 d512 sqmBytes) "storage.serviceMachineId"
        = dictGet (generate_new_ids devBytes d256 d512 sqmBytes) "telemetry.devDeviceId" := by
  refine ⟨rfl, by simp [generate_new_ids, dictGet],
    ?_, bytesHexChars_all_lower d256,
    by simp [generate_new_ids, dictGet], ?_, bytesHexChars_all_lower d512,
    by simp [generate_new_ids, dictGet], ?_,
    by simp [generate_new_ids, dictGet]⟩
  · show (bytesHexChars d256).length = 64
    rw [bytesHexChars_length, h256]
  · show (bytesHexChars d512).length = 128
    rw [bytesHexChars_length, h512]
  · refine ⟨(bytesHexChars (sqmBytes.take 4)).map asciiUpper,
      (bytesHexChars ((sqmBytes.drop 4).take 2)).map asciiUpper,
      (bytesHexChars ((sqmBytes.drop 6).take 2)).map asciiUpper,
      (bytesHexChars ((sqmBytes.drop 8).take 2)).map asciiUpper,
      (bytesHexChars (sqmBytes.drop 10)).map asciiUpper, ?_, ?_, ?_, ?_, ?_, ?_, ?_⟩
    · show (uuidChars sqmBytes).map asciiUpper = _
      simp [uuidChars, List.map_append, asciiUpper_dash]
    · rw [List.length_map, bytesHexChars_length]
      simp [List.length_take, hsqm]
    · rw [List.length_map, bytesHexChars_length]
      simp [List.length_take, List.length_drop, hsqm]
    · rw [List.length_map, bytesHexChars_length]
      simp [List.length_take, List.length_drop, hsqm]
    · rw [List.length_map, bytesHexChars_length]
      simp [List.length_take, List.length_drop, hsqm]
    · rw [List.length_map, bytesHexChars_length]
      simp [List.length_drop, hsqm]
    · simp only [List.all_append, Bool.and_eq_true]
      exact ⟨⟨⟨⟨bytesHexChars_map_upper _, bytesHexChars_map_upper _⟩,
        bytesHexChars_map_upper _⟩, bytesHexChars_map_upper _⟩,
        bytesHexChars_map_upper _⟩

theorem C9_generate_new_ids_witness :
    (generate_new_ids (List.replicate 16 0) (List.replicate 32 0) (List.replicate 64 0)
        (List.replicate 16 0)).map Prod.fst
      = ["telemetry.devDeviceId", "telemetry.macMachineId", "telemetry.machineId",
         "telemetry.sqmId", "storage.serviceMachineId"]
    ∧ (hexdigest (List.replicate 32 0)).length = 64 := by
  have h := C9_generate_new_ids (List.replicate 16 0) (List.replicate 32 0)
    (List.replicate 64 0) (List.replicate 16 0) (by simp) (by simp) (by simp)
  exact ⟨h.1, h.2.2.1⟩

/-! ## `update_storage_json` (C10) -/

theorem dictGet_eq_none_of_not_mem (l : List (String × String)) (k : String)
    (h : k ∉ keysOf l) : dictGet l k = none := by
  rw [dictGet_eq_none_iff, countKey_eq_zero_iff]
  intro p hp hc
  exact h (hc ▸ List.mem_map_of_mem Prod.fst hp)

theorem applyTelemetry_not_mem (ids : List (String × String))
    (d : List (String × String)) (k : String) (h : dictGet ids k = none) :
    dictGet (applyTelemetry d ids) k = dictGet d k := by
  induction ids generalizing d with
  | nil => rfl
  | cons p rest ih =>
      by_cases hp : p.1 = k
      · rw [dictGet_cons, if_pos hp] at h
        exact absurd h (by simp)
      · rw [dictGet_cons, if_neg hp] at h
        show dictGet (applyTelemetry
          (if strStartsWith p.1 "telemetry." = true then upsertOne d p.1 p.2 else d) rest) k
          = dictGet d k
        by_cases ht : strStartsWith p.1 "telemetry." = true
        · rw [if_pos ht, ih (upsertOne d p.1 p.2) h, dictGet_upsertOne, if_neg hp]
        · rw [if_neg ht, ih d h]

theorem applyTelemetry_not_telemetry (ids : List (String × String))
    (d : List (String × String)) (k : String)
    (h : strStartsWith k "telemetry." = false) :
    dictGet (applyTelemetry d ids) k = dictGet d k := by
  induction ids generalizing d with
  | nil => rfl
  | cons p rest ih =>
      show dictGet (applyTelemetry
        (if strStartsWith p.1 "telemetry." = true then upsertOne d p.1 p.2 else d) rest) k
        = dictGet d k
      by_cases ht : strStartsWith p.1 "telemetry." = true
      · have hp : p.1 ≠ k := fun hc => by rw [hc, h] at ht; exact Bool.false_ne_true ht
        rw [if_pos ht, ih (upsertOne d p.1 p.2), dictGet_upsertOne, if_neg hp]
      · rw [if_neg ht, ih d]

theorem applyTelemetry_mem (ids : List (String × String))
    (d : List (String × String)) (k v : String) (hnd : (keysOf ids).Nodup)
    (h : dictGet ids k = some v) (ht : strStartsWith k "telemetry." = true) :
    dictGet (applyTelemetry d ids) k = some v := by
  induction ids generalizing d with
  | nil => exact absurd h (by simp [dictGet])
  | cons p rest ih =>
      rw [keysOf_cons, List.nodup_cons] at hnd
      show dictGet (applyTelemetry
        (if strStartsWith p.1 "telemetry." = true then upsertOne d p.1 p.2 else d) rest) k
        = some v
      by_cases hp : p.1 = k
      · rw [dictGet_cons, if_pos hp] at h
        have hv : p.2 = v := by injection h
        have hrest : dictGet rest k = none :=
          dictGet_eq_none_of_not_mem rest k (hp ▸ hnd.1)
        rw [if_pos (hp ▸ ht), applyTelemetry_not_mem rest _ k hrest,
          dictGet_upsertOne, if_pos hp, hv]
      · rw [dictGet_cons, if_neg hp] at h
        by_cases htp : strStartsWith p.1 "telemetry." = true
        · rw [if_pos htp]
          exact ih (upsertOne d p.1 p.2) hnd.2 h
        · rw [if_neg htp]
          exact ih d hnd.2 h

theorem strStartsWith_service :
    strStartsWith "storage.serviceMachineId" "telemetry." = false := by decide

/-- C10: `MachineIDResetter.update_storage_json` preserves every key/value
pair of `storage.json` whose key neither starts with `telemetry.` nor
equals `storage.serviceMachineId`; only keys of those two shapes that
appear in `new_ids` are overwritten, and they receive the new values. -/
theorem C10_update_storage_json (fs : StorageFS) (data new_ids : List (String × String))
    (hs : fs.storage = some data) (hnd : (keysOf new_ids).Nodup) :
    (update_storage_json fs new_ids).2.storage = some (updateData data new_ids)
    ∧ (∀ k, strStartsWith k "telemetry." = false → k ≠ "storage.serviceMachineId" →
        dictGet (updateData data new_ids) k = dictGet data k)
    ∧ (∀ k, dictGet new_ids k = none →
        dictGet (updateData data new_ids) k = dictGet data k)
    ∧ (∀ k v, dictGet new_ids k = some v →
        (strStartsWith k "telemetry." = true ∨ k = "storage.serviceMachineId") →
        dictGet (updateData data new_ids) k = some v) := by
  refine ⟨by simp [update_storage_json, hs], fun k h1 h2 => ?_, fun k h => ?_,
    fun k v h hshape => ?_⟩
  · unfold updateData
    cases hsv : dictGet new_ids "storage.serviceMachineId" with
    | none => exact applyTelemetry_not_telemetry new_ids data k h1
    | some w =>
        have hks : ¬ ("storage.serviceMachineId" = k) := fun hc => h2 hc.symm
        rw [dictGet_upsertOne, if_neg hks]
        exact applyTelemetry_not_telemetry new_ids data k h1
  · unfold updateData
    cases hsv : dictGet new_ids "storage.serviceMachineId" with
    | none => exact applyTelemetry_not_mem new_ids data k h
    | some w =>
        have hks : ¬ ("storage.serviceMachineId" = k) := fun hc => by
          rw [← hc] at h
          rw [h] at hsv
          exact Option.noConfusion hsv
        rw [dictGet_upsertOne, if_neg hks]
        exact applyTelemetry_not_mem new_ids data k h
  · unfold updateData
    rcases hshape with ht | rfl
    · have hd1 : dictGet (applyTelemetry data new_ids) k = some v :=
        applyTelemetry_mem new_ids data k v hnd h ht
      have hks : ¬ ("storage.serviceMachineId" = k) := fun hc => by
        rw [← hc] at ht
        rw [strStartsWith_service] at ht
        exact Bool.false_ne_true ht
      cases hsv : dictGet new_ids "storage.serviceMachineId" with
      | none => exact hd1
      | some w =>
          rw [dictGet_upsertOne, if_neg hks]
          exact hd1
    · rw [h]
      simp [dictGet_upsertOne]

theorem C10_update_storage_json_witness :
    (update_storage_json
        { storage := some [("a", "1"), ("telemetry.machineId", "old")], bak := none }
        [("telemetry.machineId", "new"), ("storage.serviceMachineId", "svc")]).2.storage
      = some (updateData [("a", "1"), ("telemetry.machineId", "old")]
          [("telemetry.machineId", "new"), ("storage.serviceMachineId", "svc")])
    ∧ dictGet (updateData [("a", "1"), ("telemetry.machineId", "old")]
        [("telemetry.machineId", "new"), ("storage.serviceMachineId", "svc")]) "a"
      = dictGet [("a", "1"), ("telemetry.machineId", "old")] "a"
    ∧ dictGet (updateData [("a", "1"), ("telemetry.machineId", "old")]
        [("telemetry.machineId", "new"), ("storage.serviceMachineId", "svc")])
        "telemetry.machineId" = some "new" := by
  have h := C10_update_storage_json
    { storage := some [("a", "1"), ("telemetry.machineId", "old")], bak := none }
    [("a", "1"), ("telemetry.machineId", "old")]
    [("telemetry.machineId", "new"), ("storage.serviceMachineId", "svc")]
    rfl (by decide)
  exact ⟨h.1, h.2.1 "a" (by decide) (by decide),
    h.2.2.2 "telemetry.machineId" "new" (by decide) (Or.inl (by decide))⟩

/-! ## `setup_config` (C7) -/

theorem any_key_eq_true_iff (l : Table) (o : String) :
    (l.any (fun q => q.1 = o)) = true ↔ countKey l o ≠ 0 := by
  induction l with
  | nil => simp [countKey]
  | cons p rest ih =>
      by_cases h : p.1 = o <;> simp [countKey_cons, h, ih]

theorem any_key_upsertOne_self (l : Table) (o v : String) :
    ((upsertOne l o v).any (fun q => q.1 = o)) = true :=
  (any_key_eq_true_iff _ o).mpr (countKey_upsertOne_self l o v)

theorem any_key_upsertOne_mono (l : Table) (o' v o : String)
    (h : (l.any (fun q => q.1 = o)) = true) :
    ((upsertOne l o' v).any (fun q => q.1 = o)) = true := by
  by_cases ho : o = o'
  · subst ho; exact any_key_upsertOne_self l o v
  · rw [any_key_eq_true_iff, countKey_upsertOne_ne l o' v o ho]
    exact (any_key_eq_true_iff l o).mp h

theorem hasSection_addSection_self (cfg : Config) (s : String) :
    hasSection (addSection cfg s) s = true := by
  simp [hasSection, addSection, List.any_append]

theorem hasSection_addSection_mono (cfg : Config) (s s' : String)
    (h : hasSection cfg s = true) : hasSection (addSection cfg s') s = true := by
  simp only [hasSection, addSection, List.any_append, Bool.or_eq_true]
  exact Or.inl h

theorem setOption_cons (p : String × List (String × String)) (rest : Config)
    (s o v : String) :
    setOption (p :: rest) s o v
      = (if p.1 = s then (p.1, upsertOne p.2 o v) else p) :: setOption rest s o v := rfl

theorem hasSection_cons (p : String × List (String × String)) (rest : Config) (s : String) :
    hasSection (p :: rest) s = (decide (p.1 = s) || hasSection rest s) := rfl

theorem hasOption_cons (p : String × List (String × String)) (rest : Config) (s o : String) :
    hasOption (p :: rest) s o
      = ((decide (p.1 = s) && p.2.any (fun q => decide (q.1 = o))) || hasOption rest s o)
      := rfl

theorem hasSection_setOption (cfg : Config) (s s' o v : String) :
    hasSection (setOption cfg s' o v) s = hasSection cfg s := by
  induction cfg with
  | nil => rfl
  | cons p rest ih =>
      rw [setOption_cons, hasSection_cons, hasSection_cons, ih]
      by_cases h : p.1 = s'
      · rw [if_pos h]
      · rw [if_neg h]

theorem hasOption_addSection_mono (cfg : Config) (s o s' : String)
    (h : hasOption cfg s o = true) : hasOption (addSection cfg s') s o = true := by
  simp only [hasOption, addSection, List.any_append, Bool.or_eq_true]
  exact Or.inl h

theorem hasOption_setOption_self (cfg : Config) (s o v : String)
    (h : hasSection cfg s = true) :
    hasOption (setOption cfg s o v) s o = true := by
  induction cfg with
  | nil => exact absurd h (by simp [hasSection])
  | cons p rest ih =>
      rw [setOption_cons, hasOption_cons]
      by_cases hp : p.1 = s
      · rw [if_pos hp]
        exact Bool.or_eq_true_iff.mpr (Or.inl (Bool.and_eq_true_iff.mpr
          ⟨decide_eq_true hp, any_key_upsertOne_self p.2 o v⟩))
      · rw [if_neg hp]
        have h' : hasSection rest s = true := by
          rw [hasSection_cons] at h
          rcases Bool.or_eq_true_iff.mp h with hh | hh
          · exact absurd (of_decide_eq_true hh) hp
          · exact hh
        exact Bool.or_eq_true_iff.mpr (Or.inr (ih h'))

theorem hasOption_setOption_mono (cfg : Config) (s o s' o' v : String)
    (h : hasOption cfg s o = true) :
    hasOption (setOption cfg s' o' v) s o = true := by
  induction cfg with
  | nil => exact absurd h (by simp [hasOption])
  | cons p rest ih =>
      rw [hasOption_cons] at h
      rw [setOption_cons, hasOption_cons]
      rcases Bool.or_eq_true_iff.mp h with hh | hh
      · rcases Bool.and_eq_true_iff.mp hh with ⟨hp, ha⟩
        by_cases hps : p.1 = s'
        · rw [if_pos hps]
          exact Bool.or_eq_true_iff.mpr (Or.inl (Bool.and_eq_true_iff.mpr
            ⟨hp, any_key_upsertOne_mono p.2 o' v o ha⟩))
        · rw [if_neg hps]
          exact Bool.or_eq_true_iff.mpr (Or.inl (Bool.and_eq_true_iff.mpr ⟨hp, ha⟩))
      · by_cases hps : p.1 = s'
        · rw [if_pos hps]
          exact Bool.or_eq_true_iff.mpr (Or.inr (ih hh))
        · rw [if_neg hps]
          exact Bool.or_eq_true_iff.mpr (Or.inr (ih hh))

theorem mergeOpts_flag_true (sec : String) (cfg : Config) (opts : List (String × String)) :
    (mergeOpts sec (cfg, true) opts).2 = true := by
  induction opts generalizing cfg with
  | nil => rfl
  | cons q rest ih =>
      rcases q with ⟨o, v⟩
      by_cases h : hasOption cfg sec o = true
      · simp only [mergeOpts, if_pos h]
        exact ih cfg
      · simp only [mergeOpts, if_neg h]
        exact ih (setOption cfg sec o v)

theorem mergeOpts_flag_false (sec : String) (cfg : Config) (m : Bool)
    (opts : List (String × String)) (h : (mergeOpts sec (cfg, m) opts).2 = false) :
    (mergeOpts sec (cfg, m) opts).1 = cfg ∧ m = false := by
  induction opts generalizing cfg m with
  | nil => exact ⟨rfl, h⟩
  | cons q rest ih =>
      rcases q with ⟨o, v⟩
      by_cases hc : hasOption cfg sec o = true
      · simp only [mergeOpts, if_pos hc] at h ⊢
        exact ih cfg m h
      · simp only [mergeOpts, if_neg hc] at h
        have htrue := mergeOpts_flag_true sec (setOption cfg sec o v) rest
        rw [h] at htrue
        exact absurd htrue Bool.false_ne_true

theorem mergeOpts_preserves_hasOption (sec : String) (cfg : Config) (m : Bool)
    (opts : List (String × String)) (s o : String) (h : hasOption cfg s o = true) :
    hasOption (mergeOpts sec (cfg, m) opts).1 s o = true := by
  induction opts generalizing cfg m with
  | nil => exact h
  | cons q rest ih =>
      rcases q with ⟨o0, v0⟩
      by_cases hc : hasOption cfg sec o0 = true
      · simp only [mergeOpts, if_pos hc]
        exact ih cfg m h
      · simp only [mergeOpts, if_neg hc]
        exact ih _ true (hasOption_setOption_mono cfg s o sec o0 v0 h)

theorem mergeOpts_preserves_hasSection (sec : String) (cfg : Config) (m : Bool)
    (opts : List (String × String)) (s : String) (h : hasSection cfg s = true) :
    hasSection (mergeOpts sec (cfg, m) opts).1 s = true := by
  induction opts generalizing cfg m with
  | nil => exact h
  | cons q rest ih =>
      rcases q with ⟨o0, v0⟩
      by_cases hc : hasOption cfg sec o0 = true
      · simp only [mergeOpts, if_pos hc]
        exact ih cfg m h
      · simp only [mergeOpts, if_neg hc]
        exact ih _ true (by rw [hasSection_setOption]; exact h)

theorem mergeOpts_establishes (sec : String) (cfg : Config) (m : Bool)
    (opts : List (String × String)) (hs : hasSection cfg sec = true) :
    ∀ o v, (o, v) ∈ opts → hasOption (mergeOpts sec (cfg, m) opts).1 sec o = true := by
  induction opts generalizing cfg m with
  | nil => intro o v hm; simp at hm
  | cons q rest ih =>
      rcases q with ⟨o0, v0⟩
      intro o v hm
      by_cases hc : hasOption cfg sec o0 = true
      · simp only [mergeOpts, if_pos hc]
        rcases List.mem_cons.1 hm with heq | hmem
        · injection heq with h1 h2
          subst h1
          exact mergeOpts_preserves_hasOption sec cfg m rest sec o hc
        · exact ih cfg m hs o v hmem
      · simp only [mergeOpts, if_neg hc]
        rcases List.mem_cons.1 hm with heq | hmem
        · injection heq with h1 h2
          subst h1
          exact mergeOpts_preserves_hasOption sec _ true rest sec o
            (hasOption_setOption_self cfg sec o v0 hs)
        · exact ih _ true (by rw [hasSection_setOption]; exact hs) o v hmem

theorem mergeOpts_all_present (sec : String) (cfg : Config) (m : Bool)
    (opts : List (String × String))
    (h : ∀ o v, (o, v) ∈ opts → hasOption cfg sec o = true) :
    mergeOpts sec (cfg, m) opts = (cfg, m) := by
  induction opts with
  | nil => rfl
  | cons q rest ih =>
      rcases q with ⟨o0, v0⟩
      have hc := h o0 v0 (List.mem_cons_self _ _)
      simp only [mergeOpts, if_pos hc]
      exact ih (fun o v hm => h o v (List.mem_cons_of_mem _ hm))

theorem mergeSections_flag_true (cfg : Config)
    (d : List (String × List (String × String))) :
    (mergeSections (cfg, true) d).2 = true := by
  induction d generalizing cfg with
  | nil => rfl
  | cons q rest ih =>
      rcases q with ⟨sec, opts⟩
      by_cases hs : hasSection cfg sec = true
      · simp only [mergeSections, if_pos hs]
        rcases hmo : mergeOpts sec (cfg, true) opts with ⟨cfg1, m1⟩
        have hm1 : m1 = true := by
          have := mergeOpts_flag_true sec cfg opts
          rw [hmo] at this
          exact this
        rw [hm1]
        exact ih cfg1
      · simp only [mergeSections, if_neg hs]
        rcases hmo : mergeOpts sec (addSection cfg sec, true) opts with ⟨cfg1, m1⟩
        have hm1 : m1 = true := by
          have := mergeOpts_flag_true sec (addSection cfg sec) opts
          rw [hmo] at this
          exact this
        rw [hm1]
        exact ih cfg1

theorem mergeSections_flag_false (cfg : Config) (m : Bool)
    (d : List (String × List (String × String)))
    (h : (mergeSections (cfg, m) d).2 = false) :
    (mergeSections (cfg, m) d).1 = cfg ∧ m = false := by
  induction d generalizing cfg m with
  | nil => exact ⟨rfl, h⟩
  | cons q rest ih =>
      rcases q with ⟨sec, opts⟩
      by_cases hs : hasSection cfg sec = true
      · simp only [mergeSections, if_pos hs] at h ⊢
        rcases hmo : mergeOpts sec (cfg, m) opts with ⟨cfg1, m1⟩
        rw [hmo] at h
        rcases ih cfg1 m1 h with ⟨h1, h2⟩
        subst h2
        rcases mergeOpts_flag_false sec cfg m opts (by rw [hmo]) with ⟨h3, h4⟩
        rw [hmo] at h3
        exact ⟨h1.trans h3, h4⟩
      · simp only [mergeSections, if_neg hs] at h
        rcases hmo : mergeOpts sec (addSection cfg sec, true) opts with ⟨cfg1, m1⟩
        have hm1 : m1 = true := by
          have := mergeOpts_flag_true sec (addSection cfg sec) opts
          rw [hmo] at this
          exact this
        rw [hmo, hm1] at h
        have htrue := mergeSections_flag_true cfg1 rest
        rw [h] at htrue
        exact absurd htrue Bool.false_ne_true

theorem mergeSections_preserves (d : List (String × List (String × String)))
    (cfg : Config) (m : Bool) (s o : String) :
    (hasSection cfg s = true → hasSection (mergeSections (cfg, m) d).1 s = true)
    ∧ (hasOption cfg s o = true → hasOption (mergeSections (cfg, m) d).1 s o = true) := by
  induction d generalizing cfg m with
  | nil => exact ⟨id, id⟩
  | cons q rest ih =>
      rcases q with ⟨sec, opts⟩
      by_cases hs : hasSection cfg sec = true
      · simp only [mergeSections, if_pos hs]
        rcases hmo : mergeOpts sec (cfg, m) opts with ⟨cfg1, m1⟩
        constructor
        · intro h
          refine (ih cfg1 m1).1 ?_
          have := mergeOpts_preserves_hasSection sec cfg m opts s h
          rw [hmo] at this
          exact this
        · intro h
          refine (ih cfg1 m1).2 ?_
          have := mergeOpts_preserves_hasOption sec cfg m opts s o h
          rw [hmo] at this
          exact this
      · simp only [mergeSections, if_neg hs]
        rcases hmo : mergeOpts sec (addSection cfg sec, true) opts with ⟨cfg1, m1⟩
        constructor
        · intro h
          refine (ih cfg1 m1).1 ?_
          have := mergeOpts_preserves_hasSection sec (addSection cfg sec) true opts s
            (hasSection_addSection_mono cfg s sec h)
          rw [hmo] at this
          exact this
        · intro h
          refine (ih cfg1 m1).2 ?_
          have := mergeOpts_preserves_hasOption sec (addSection cfg sec) true opts s o
            (hasOption_addSection_mono cfg s o sec h)
          rw [hmo] at this
          exact this

theorem mergeSections_establishes (d : List (String × List (String × String)))
    (cfg : Config) (m : Bool) :
    ∀ sec opts, (sec, opts) ∈ d →
      hasSection (mergeSections (cfg, m) d).1 sec = true
        ∧ ∀ o v, (o, v) ∈ opts →
            hasOption (mergeSections (cfg, m) d).1 sec o = true := by
  induction d generalizing cfg m with
  | nil => intro sec opts hm; simp at hm
  | cons q rest ih =>
      rcases q with ⟨sec0, opts0⟩
      intro sec opts hm
      by_cases hs : hasSection cfg sec0 = true
      · simp only [mergeSections, if_pos hs]
        rcases hmo : mergeOpts sec0 (cfg, m) opts0 with ⟨cfg1, m1⟩
        rcases List.mem_cons.1 hm with heq | hmem
        · injection heq with h1 h2
          subst h1
          subst h2
          constructor
          · refine (mergeSections_preserves rest cfg1 m1 sec "").1 ?_
            have := mergeOpts_preserves_hasSection sec cfg m opts sec hs
            rw [hmo] at this
            exact this
          · intro o v hov
            refine (mergeSections_preserves rest cfg1 m1 sec o).2 ?_
            have := mergeOpts_establishes sec cfg m opts hs o v hov
            rw [hmo] at this
            exact this
        · exact ih cfg1 m1 sec opts hmem
      · simp only [mergeSections, if_neg hs]
        rcases hmo : mergeOpts sec0 (addSection cfg sec0, true) opts0 with ⟨cfg1, m1⟩
        rcases List.mem_cons.1 hm with heq | hmem
        · injection heq with h1 h2
          subst h1
          subst h2
          constructor
          · refine (mergeSections_preserves rest cfg1 m1 sec "").1 ?_
            have := mergeOpts_preserves_hasSection sec (addSection cfg sec) true opts sec
              (hasSection_addSection_self cfg sec)
            rw [hmo] at this
            exact this
          · intro o v hov
            refine (mergeSections_preserves rest cfg1 m1 sec o).2 ?_
            have := mergeOpts_establishes sec (addSection cfg sec) true opts
              (hasSection_addSection_self cfg sec) o v hov
            rw [hmo] at this
            exact this
        · exact ih cfg1 m1 sec opts hmem

theorem mergeSections_all_present (d : List (String × List (String × String)))
    (cfg : Config)
    (h : ∀ sec opts, (sec, opts) ∈ d →
          hasSection cfg sec = true ∧ ∀ o v, (o, v) ∈ opts → hasOption cfg sec o = true) :
    mergeSections (cfg, false) d = (cfg, false) := by
  induction d with
  | nil => rfl
  | cons q rest ih =>
      rcases q with ⟨sec0, opts0⟩
      have hh := h sec0 opts0 (List.mem_cons_self _ _)
      simp only [mergeSections, if_pos hh.1]
      rw [mergeOpts_all_present sec0 cfg false opts0 hh.2]
      exact ih (fun sec opts hm => h sec opts (List.mem_cons_of_mem _ hm))

theorem setAll_preserves_hasSection (sec : String) (cfg : Config)
    (opts : List (String × String)) (s : String) (h : hasSection cfg s = true) :
    hasSection (setAll sec cfg opts) s = true := by
  induction opts generalizing cfg with
  | nil => exact h
  | cons q rest ih =>
      rcases q with ⟨o, v⟩
      exact ih (setOption cfg sec o v) (by rw [hasSection_setOption]; exact h)

theorem setAll_preserves_hasOption (sec : String) (cfg : Config)
    (opts : List (String × String)) (s o : String) (h : hasOption cfg s o = true) :
    hasOption (setAll sec cfg opts) s o = true := by
  induction opts generalizing cfg with
  | nil => exact h
  | cons q rest ih =>
      rcases q with ⟨o0, v0⟩
      exact ih (setOption cfg sec o0 v0) (hasOption_setOption_mono cfg s o sec o0 v0 h)

theorem setAll_establishes (sec : String) (cfg : Config)
    (opts : List (String × String)) (hs : hasSection cfg sec = true) :
    ∀ o v, (o, v) ∈ opts → hasOption (setAll sec cfg opts) sec o = true := by
  induction opts generalizing cfg with
  | nil => intro o v hm; simp at hm
  | cons q rest ih =>
      rcases q with ⟨o0, v0⟩
      intro o v hm
      rcases List.mem_cons.1 hm with heq | hmem
      · injection heq with h1 h2
        subst h1
        exact setAll_preserves_hasOption sec (setOption cfg sec o v0) rest sec o
          (hasOption_setOption_self cfg sec o v0 hs)
      · exact ih (setOption cfg sec o0 v0) (by rw [hasSection_setOption]; exact hs) o v hmem

theorem buildFresh_preserves (d : List (String × List (String × String)))
    (cfg : Config) (s o : String) :
    (hasSection cfg s = true → hasSection (buildFresh cfg d) s = true)
    ∧ (hasOption cfg s o = true → hasOption (buildFresh cfg d) s o = true) := by
  induction d generalizing cfg with
  | nil => exact ⟨id, id⟩
  | cons q rest ih =>
      rcases q with ⟨sec0, opts0⟩
      constructor
      · intro h
        exact (ih (setAll sec0 (addSection cfg sec0) opts0)).1
          (setAll_preserves_hasSection sec0 (addSection cfg sec0) opts0 s
            (hasSection_addSection_mono cfg s sec0 h))
      · intro h
        exact (ih (setAll sec0 (addSection cfg sec0) opts0)).2
          (setAll_preserves_hasOption sec0 (addSection cfg sec0) opts0 s o
            (hasOption_addSection_mono cfg s o sec0 h))

theorem buildFresh_establishes (d : List (String × List (String × String)))
    (cfg : Config) :
    ∀ sec opts, (sec, opts) ∈ d →
      hasSection (buildFresh cfg d) sec = true
        ∧ ∀ o v, (o, v) ∈ opts → hasOption (buildFresh cfg d) sec o = true := by
  induction d generalizing cfg with
  | nil => intro sec opts hm; simp at hm
  | cons q rest ih =>
      rcases q with ⟨sec0, opts0⟩
      intro sec opts hm
      rcases List.mem_cons.1 hm with heq | hmem
      · injection heq with h1 h2
        subst h1
        subst h2
        constructor
        · exact (buildFresh_preserves rest (setAll sec (addSection cfg sec) opts) sec "").1
            (setAll_preserves_hasSection sec (addSection cfg sec) opts sec
              (hasSection_addSection_self cfg sec))
        · intro o v hov
          exact (buildFresh_preserves rest (setAll sec (addSection cfg sec) opts) sec o).2
            (setAll_establishes sec (addSection cfg sec) opts
              (hasSection_addSection_self cfg sec) o v hov)
      · exact ih (setAll sec0 (addSection cfg sec0) opts0) sec opts hmem

/-- C7: config round-trip — after `setup_config` writes `config.ini`,
calling `setup_config` again on the unchanged file returns the same
configuration (same sections, options and values), the merge step finds
nothing missing (`config_modified` stays `False`), and the file is not
rewritten. -/
theorem C7_config_round_trip (defaults : List (String × List (String × String)))
    (file0 : Option Config) :
    setup_config defaults (some (setup_config defaults file0).file)
        = { ret := (setup_config defaults file0).ret,
            file := (setup_config defaults file0).file,
            modified := false }
      ∧ (setup_config defaults file0).ret = (setup_config defaults file0).file := by
  cases file0 with
  | none =>
      have hall := buildFresh_establishes defaults []
      have hm := mergeSections_all_present defaults (buildFresh [] defaults) hall
      constructor
      · show setup_config defaults (some (buildFresh [] defaults)) = _
        simp [setup_config, hm]
      · rfl
  | some ex =>
      rcases hmo : mergeSections (ex, false) defaults with ⟨cfg1, m1⟩
      have hall : ∀ sec opts, (sec, opts) ∈ defaults →
          hasSection cfg1 sec = true
            ∧ ∀ o v, (o, v) ∈ opts → hasOption cfg1 sec o = true := by
        intro sec opts hm
        have := mergeSections_establishes defaults ex false sec opts hm
        rw [hmo] at this
        exact this
      cases m1 with
      | true =>
          have hsecond := mergeSections_all_present defaults cfg1 hall
          constructor
          · show setup_config defaults (some (setup_config defaults (some ex)).file) = _
            simp [setup_config, hmo, hsecond]
          · simp [setup_config, hmo]
      | false =>
          have hex : cfg1 = ex := by
            have := mergeSections_flag_false ex false defaults (by rw [hmo])
            rw [hmo] at this
            exact this.1
          subst hex
          have hsecond := mergeSections_all_present defaults cfg1 hall
          constructor
          · show setup_config defaults (some (setup_config defaults (some cfg1)).file) = _
            simp [setup_config, hmo, hsecond]
          · simp [setup_config, hmo]
